import Mathlib

/-!
Formal model of the NovaOS kernel runtime core, with theorems checking the
natural-language specification against the implementation.

Each definition is a shallow embedding of the corresponding C function, with
machine integers modelled as `Nat` (wraparound written explicitly as `% 2^32`
or `% 2^64` where the C arithmetic can wrap), pointers to kernel objects
modelled as table indices or physical addresses, and physical memory holding
page tables modelled as a partial map from frame base addresses to table
contents.  C loops are modelled by structurally recursive functions carrying
an explicit fuel argument that dominates the loop's iteration count, so that
every definition evaluates by kernel reduction on concrete inputs.
-/

set_option maxHeartbeats 1000000

set_option maxRecDepth 100000

/-! ## Physical memory manager (src/unnamed/part_010, `pmm_*`)

The bitmap is one bit per 4 KiB frame, `false` = free, `true` = used,
modelled as a total function `Nat → Bool` (the C array is `memset` to zero at
init, so bits beyond `total_pages` read as `false` until written).
-/

structure PMMState where
  total_pages : Nat
  bitmap : Nat → Bool
  used_pages : Nat

/-- `find_free_page`: first-fit scan `for (i = 0; i < total_pages; i++)`.
The C sentinel `(uint32_t)-1` for "no free page" is rendered as `none`.
`fuel` bounds the remaining iterations; callers pass `total_pages`, which is
exactly the number of iterations of the C loop. -/
def find_free_page_from (s : PMMState) (i : Nat) : Nat → Option Nat
  | 0 => none
  | fuel + 1 =>
    if i < s.total_pages then
      if s.bitmap i = false then some i else find_free_page_from s (i + 1) fuel
    else none

def find_free_page (s : PMMState) : Option Nat :=
  find_free_page_from s 0 s.total_pages

/-- Inner window test of `find_free_pages`: the C `for (j …) if (bitmap_test(i+j))`
loop breaks at the first used bit of the window, giving its offset. -/
def window_used_at (s : PMMState) (i count : Nat) : Option Nat :=
  (List.range count).find? (fun j => s.bitmap (i + j))

/-- Outer scan of `find_free_pages`: on a used bit at offset `j` the C code
does `i += j` and the loop increment adds one more.  The loop bound
`total_pages - count + 1` is computed by `find_free_pages` below in the C's
unsigned 64-bit arithmetic (it underflows when `count > total_pages + 1`).
`fuel` bounds the number of loop entries. -/
def find_free_pages_from (s : PMMState) (count bound i : Nat) : Nat → Option Nat
  | 0 => none
  | fuel + 1 =>
    if i < bound then
      match window_used_at s i count with
      | none => some i
      | some j => find_free_pages_from s count bound (i + j + 1) fuel
    else none

/-- `find_free_pages(count)`: `count == 0` and `count == 1` are special-cased
as in the C; otherwise the sliding-window scan runs with the (possibly
underflowed) unsigned bound `total_pages - count + 1`. -/
def find_free_pages (s : PMMState) (count : Nat) : Option Nat :=
  if count = 0 then none
  else if count = 1 then find_free_page s
  else
    let bound := (s.total_pages + (2 ^ 64 - count % 2 ^ 64) + 1) % 2 ^ 64
    find_free_pages_from s count bound 0 bound

/-- `pmm_alloc_page`: allocate the first free frame; returns the frame's byte
address, `0` meaning out of memory. -/
def pmm_alloc_page (s : PMMState) : PMMState × Nat :=
  match find_free_page s with
  | none => (s, 0)
  | some page =>
    ({ s with bitmap := Function.update s.bitmap page true,
              used_pages := s.used_pages + 1 }, page * 4096)

/-- `pmm_alloc_pages(count)`: contiguous allocation; marks all `count` bits
and bumps `used_pages` by `count`. -/
def pmm_alloc_pages (s : PMMState) (count : Nat) : PMMState × Nat :=
  if count = 0 then (s, 0)
  else
    match find_free_pages s count with
    | none => (s, 0)
    | some page =>
      ({ s with bitmap := (List.range count).foldl
                  (fun f i => Function.update f (page + i) true) s.bitmap,
                used_pages := s.used_pages + count }, page * 4096)

/-- `pmm_free_page`: refuses `addr == 0`, out-of-range pages, and double
frees (bit already clear); otherwise clears the bit and decrements the
counter.  `uint32_t page = addr / PAGE_SIZE` truncates to 32 bits. -/
def pmm_free_page (s : PMMState) (addr : Nat) : PMMState :=
  if addr = 0 then s
  else
    let page := addr / 4096 % 2 ^ 32
    if s.total_pages ≤ page then s
    else if s.bitmap page = false then s
    else { s with bitmap := Function.update s.bitmap page false,
                  used_pages := s.used_pages - 1 }

/-- `pmm_free_pages`: frees `count` consecutive frames one by one. -/
def pmm_free_pages (s : PMMState) (addr count : Nat) : PMMState :=
  (List.range count).foldl (fun st i => pmm_free_page st (addr + i * 4096)) s

/-- `pmm_mark_used`: sets the bit (and bumps the counter) only if in range
and currently clear. -/
def pmm_mark_used (s : PMMState) (addr : Nat) : PMMState :=
  let page := addr / 4096 % 2 ^ 32
  if s.total_pages ≤ page then s
  else if s.bitmap page = false then
    { s with bitmap := Function.update s.bitmap page true,
             used_pages := s.used_pages + 1 }
  else s

/-- `pmm_mark_used_range`. -/
def pmm_mark_used_range (s : PMMState) (addr count : Nat) : PMMState :=
  (List.range count).foldl (fun st i => pmm_mark_used st (addr + i * 4096)) s

def pmm_get_total_pages (s : PMMState) : Nat := s.total_pages

def pmm_get_used_pages (s : PMMState) : Nat := s.used_pages

/-- Unsigned 32-bit subtraction, used by `pmm_get_free_pages`
(`total_pages - used_pages` on `uint32_t`). -/
def u32_sub (a b : Nat) : Nat := (a % 2 ^ 32 + (2 ^ 32 - b % 2 ^ 32)) % 2 ^ 32

def pmm_get_free_pages (s : PMMState) : Nat := u32_sub s.total_pages s.used_pages

/-- `pmm_init(mem_size, kernel_end)`: computes `total_pages` capped at
`MAX_PAGES = 2^20`, clears the bitmap, then pre-marks frame 0, the kernel
image frames from `KERNEL_PHYSICAL_START = 0x100000`, and the frames of the
bitmap array itself.  The address of the static `page_bitmap` array is a
link-time constant; it is a parameter `bitmap_addr` here.
`kernel_end - kernel_start` is unsigned 64-bit arithmetic. -/
def pmm_init (mem_size kernel_end bitmap_addr : Nat) : PMMState :=
  let total0 := mem_size / 4096
  let total := if 1048576 < total0 then 1048576 else total0
  let base : PMMState := ⟨total, fun _ => false, 0⟩
  let s1 := pmm_mark_used base 0
  let kernel_size := (kernel_end + 2 ^ 64 - 0x100000 % 2 ^ 64) % 2 ^ 64
  let kernel_pages := (kernel_size + 4095) / 4096
  let s2 := (List.range kernel_pages).foldl
    (fun st i => pmm_mark_used st (0x100000 + i * 4096)) s1
  let bitmap_pages := (131072 + 4095) / 4096
  (List.range bitmap_pages).foldl
    (fun st i => pmm_mark_used st (bitmap_addr + i * 4096)) s2

/-- The five frame-allocator operations named by the specification. -/
inductive PMMOp where
  | alloc_one : PMMOp
  | alloc_contiguous : Nat → PMMOp
  | free_one : Nat → PMMOp
  | free_range : Nat → Nat → PMMOp
  | mark_used : Nat → PMMOp

def pmm_step (s : PMMState) : PMMOp → PMMState
  | .alloc_one => (pmm_alloc_page s).1
  | .alloc_contiguous n => (pmm_alloc_pages s n).1
  | .free_one a => pmm_free_page s a
  | .free_range a n => pmm_free_pages s a n
  | .mark_used a => pmm_mark_used s a

def pmm_run (s : PMMState) (ops : List PMMOp) : PMMState :=
  ops.foldl pmm_step s

/-- An `alloc_contiguous` request that stays within the frame pool (the
amended precondition of claim C4). -/
def pmm_op_bounded (total : Nat) : PMMOp → Bool
  | .alloc_contiguous n => n ≤ total
  | _ => true

/-- Whether an operation frees the frame with index `p` (the page number a
`pmm_free_page` call on its address would clear). -/
def pmm_op_frees (op : PMMOp) (p : Nat) : Bool :=
  match op with
  | .free_one a => a / 4096 % 2 ^ 32 == p
  | .free_range a n => (List.range n).any (fun i => (a + i * 4096) / 4096 % 2 ^ 32 == p)
  | _ => false

/-! ## Virtual memory manager (src/kernel/mm/vmm.c)

A page table is 512 64-bit entries.  Physical memory, as far as it holds
page tables, is a partial map from frame base addresses to table contents;
the kernel accesses a table through the direct map
(`vmm_phys_to_virt(phys) = phys + KERNEL_VIRTUAL_BASE`), which the model
renders as looking the physical base address up in `mem`.  A lookup of a
frame that holds no table (`none`) corresponds to the C dereferencing a
pointer into untracked memory; every operation propagates it as `none`
("stuck"), which is never confused with a defined result. -/

abbrev PTable := Fin 512 → Nat

structure VMState where
  mem : Nat → Option PTable
  pmm : PMMState
  cr3 : Nat

/-- `entry & PAGE_PRESENT` (bit 0). -/
def entryPresent (e : Nat) : Bool := e % 2 = 1

/-- `entry & ~0xFFF`: the physical frame base carried by an entry. -/
def entryAddr (e : Nat) : Nat := e - e % 4096

/-- `PAGE_ALIGN_DOWN(addr) = addr & ~(PAGE_SIZE-1)`. -/
def pageAlignDown (a : Nat) : Nat := a - a % 4096

/-- `PML4_INDEX(addr) = (addr >> 39) & 0x1FF`. -/
def pml4Index (v : Nat) : Fin 512 := ⟨v / 2 ^ 39 % 512, Nat.mod_lt _ (by norm_num)⟩

/-- `PDPT_INDEX(addr) = (addr >> 30) & 0x1FF`. -/
def pdptIndex (v : Nat) : Fin 512 := ⟨v / 2 ^ 30 % 512, Nat.mod_lt _ (by norm_num)⟩

/-- `PD_INDEX(addr) = (addr >> 21) & 0x1FF`. -/
def pdIndex (v : Nat) : Fin 512 := ⟨v / 2 ^ 21 % 512, Nat.mod_lt _ (by norm_num)⟩

/-- `PT_INDEX(addr) = (addr >> 12) & 0x1FF`. -/
def ptIndex (v : Nat) : Fin 512 := ⟨v / 2 ^ 12 % 512, Nat.mod_lt _ (by norm_num)⟩

/-- `get_or_create_table(table, index, flags)`: return the child table's
physical base if the entry is present; otherwise allocate a frame
(`0` return = out of memory = overall failure), `memset` it to zero, and
link it as `phys | flags`.  The zeroing happens before the parent entry is
written, exactly as in the C. -/
def get_or_create_table (s : VMState) (tablePhys : Nat) (index : Fin 512)
    (flags : Nat) : Option (VMState × Nat) :=
  match s.mem tablePhys with
  | none => none
  | some t =>
    if entryPresent (t index) then some (s, entryAddr (t index))
    else
      match pmm_alloc_page s.pmm with
      | (pmm1, phys) =>
        if phys = 0 then none
        else
          let t1 : PTable := if tablePhys = phys then (fun _ => 0) else t
          some ({ mem := fun a =>
                    if a = tablePhys then some (Function.update t1 index (phys ||| flags))
                    else if a = phys then some (fun _ => 0)
                    else s.mem a,
                  pmm := pmm1, cr3 := s.cr3 }, phys)

/-- `PAGE_FLAGS_KERNEL = PAGE_PRESENT | PAGE_WRITE`. -/
def PAGE_FLAGS_KERNEL : Nat := 3

/-- `PAGE_FLAGS_USER = PAGE_PRESENT | PAGE_WRITE | PAGE_USER`. -/
def PAGE_FLAGS_USER : Nat := 7

/-- `vmm_map_page(virt, phys, flags)`: align both addresses down, walk (and
build) the three upper levels with `PAGE_FLAGS_KERNEL`, then write
`phys | flags | PAGE_PRESENT` into the leaf entry.  `none` covers both the
C's `-1` (allocation failure) and a stuck dereference. -/
def vmm_map_page (s : VMState) (virt phys flags : Nat) : Option VMState :=
  let v := pageAlignDown virt
  let p := pageAlignDown phys
  match get_or_create_table s s.cr3 (pml4Index v) PAGE_FLAGS_KERNEL with
  | none => none
  | some (s1, pdptPhys) =>
    match get_or_create_table s1 pdptPhys (pdptIndex v) PAGE_FLAGS_KERNEL with
    | none => none
    | some (s2, pdPhys) =>
      match get_or_create_table s2 pdPhys (pdIndex v) PAGE_FLAGS_KERNEL with
      | none => none
      | some (s3, ptPhys) =>
        match s3.mem ptPhys with
        | none => none
        | some pt =>
          some { s3 with
                 mem := fun a =>
                   if a = ptPhys then
                     some (Function.update pt (ptIndex v) (p ||| flags ||| 1))
                   else s3.mem a }

/-- `vmm_get_physical(virt)`: walk the four levels; a non-present entry at
any level returns `0` (the C's "not mapped" sentinel); otherwise the frame
base of the leaf entry plus the page offset. -/
def vmm_get_physical (s : VMState) (virt : Nat) : Option Nat :=
  let page_offset := virt % 4096
  let v := pageAlignDown virt
  match s.mem s.cr3 with
  | none => none
  | some t1 =>
    if entryPresent (t1 (pml4Index v)) = false then some 0
    else
      match s.mem (entryAddr (t1 (pml4Index v))) with
      | none => none
      | some t2 =>
        if entryPresent (t2 (pdptIndex v)) = false then some 0
        else
          match s.mem (entryAddr (t2 (pdptIndex v))) with
          | none => none
          | some t3 =>
            if entryPresent (t3 (pdIndex v)) = false then some 0
            else
              match s.mem (entryAddr (t3 (pdIndex v))) with
              | none => none
              | some t4 =>
                if entryPresent (t4 (ptIndex v)) = false then some 0
                else some (entryAddr (t4 (ptIndex v)) + page_offset)

/-- `vmm_is_mapped(virt) = vmm_get_physical(virt) != 0`. -/
def vmm_is_mapped (s : VMState) (virt : Nat) : Option Bool :=
  (vmm_get_physical s virt).map (fun p => decide (p ≠ 0))

/-- `vmm_unmap_page(virt)`: walk the three upper levels, returning silently
(state unchanged) if any entry is non-present; otherwise clear the leaf
entry. -/
def vmm_unmap_page (s : VMState) (virt : Nat) : Option VMState :=
  let v := pageAlignDown virt
  match s.mem s.cr3 with
  | none => none
  | some t1 =>
    if entryPresent (t1 (pml4Index v)) = false then some s
    else
      match s.mem (entryAddr (t1 (pml4Index v))) with
      | none => none
      | some t2 =>
        if entryPresent (t2 (pdptIndex v)) = false then some s
        else
          match s.mem (entryAddr (t2 (pdptIndex v))) with
          | none => none
          | some t3 =>
            if entryPresent (t3 (pdIndex v)) = false then some s
            else
              match s.mem (entryAddr (t3 (pdIndex v))) with
              | none => none
              | some t4 =>
                some { s with
                       mem := fun a =>
                         if a = entryAddr (t3 (pdIndex v)) then
                           some (Function.update t4 (ptIndex v) 0)
                         else s.mem a }

/-- `vmm_create_address_space()`: allocate a PML4 frame (`0` = failure,
returned to the caller with the allocator state as the C leaves it), zero
it, and copy the upper-half entries (256–511) from the current PML4. -/
def vmm_create_address_space (s : VMState) : Option (VMState × Nat) :=
  match pmm_alloc_page s.pmm with
  | (pmm1, pml4Phys) =>
    if pml4Phys = 0 then some ({ s with pmm := pmm1 }, 0)
    else
      match s.mem s.cr3 with
      | none => none
      | some tcur =>
        some ({ s with
                pmm := pmm1
                mem := fun a =>
                  if a = pml4Phys then some (fun i => if 256 ≤ i.val then tcur i else 0)
                  else s.mem a }, pml4Phys)

/-- Innermost loop of `vmm_destroy_address_space`: for every present PD
entry, free the page-table frame it points to. -/
def destroy_pd (pmm : PMMState) (pd : PTable) : PMMState :=
  (List.range 512).foldl
    (fun pm k =>
      if entryPresent (pd ⟨k % 512, Nat.mod_lt _ (by norm_num)⟩) then
        pmm_free_page pm (entryAddr (pd ⟨k % 512, Nat.mod_lt _ (by norm_num)⟩))
      else pm) pmm

/-- Middle loop of `vmm_destroy_address_space`: for every present PDPT
entry, free the PD's page-table frames and then the PD frame itself.
Looks the PD table up through the direct map. -/
def destroy_pdpt (s : VMState) (pmm : PMMState) (pdpt : PTable) : Option PMMState :=
  (List.range 512).foldl
    (fun acc j =>
      match acc with
      | none => none
      | some pm =>
        let e := pdpt ⟨j % 512, Nat.mod_lt _ (by norm_num)⟩
        if entryPresent e then
          match s.mem (entryAddr e) with
          | none => none
          | some pd => some (pmm_free_page (destroy_pd pm pd) (entryAddr e))
        else some pm) (some pmm)

/-- `vmm_destroy_address_space(pml4_phys)`: free the lower-half (entries
0–255) page-table subtrees, then the PML4 frame itself.  The frames' memory
contents are not erased (only the allocator bits change). -/
def vmm_destroy_address_space (s : VMState) (pml4Phys : Nat) : Option VMState :=
  match s.mem pml4Phys with
  | none => none
  | some pml4 =>
    let lower := (List.range 256).foldl
      (fun acc i =>
        match acc with
        | none => none
        | some pm =>
          let e := pml4 ⟨i % 512, Nat.mod_lt _ (by norm_num)⟩
          if entryPresent e then
            match s.mem (entryAddr e) with
            | none => none
            | some pdpt =>
              match destroy_pdpt s pm pdpt with
              | none => none
              | some pm1 => some (pmm_free_page pm1 (entryAddr e))
          else some pm) (some s.pmm)
    match lower with
    | none => none
    | some pmFinal => some { s with pmm := pmm_free_page pmFinal pml4Phys }

/-! ## Task model and scheduler (src/kernel/sched/process.c, scheduler.c)

Tasks are identified by their slot index in `process_table`; the intrusive
`next`/`prev` links of the ready queue are rendered as a list of slot
indices (head = `ready_queue_head`).  Saved CPU contexts and the CR3 switch
are not needed by the scheduling claims and are omitted; the lifecycle
fields are kept exactly. -/

inductive PState where
  | ready | running | blocked | sleeping | zombie | dead
deriving DecidableEq

structure Proc where
  pid : Nat
  pstate : PState
  sleep_until : Nat
  total_time : Nat
  time_used : Nat
deriving DecidableEq

structure SchedState where
  table : List (Option Proc)
  queue : List Nat
  current : Option Nat
  ticks : Nat
  running : Bool
deriving DecidableEq

def getProc (s : SchedState) (i : Nat) : Option Proc := s.table.getD i none

def updateProc (s : SchedState) (i : Nat) (f : Proc → Proc) : SchedState :=
  { s with table := s.table.set i ((s.table.getD i none).map f) }

/-- `process_wakeup_sleeping()`: every sleeping task whose deadline has been
reached becomes ready. -/
def process_wakeup_sleeping (s : SchedState) : SchedState :=
  { s with table := s.table.map (fun slot =>
      match slot with
      | some p =>
        if p.pstate = PState.sleeping ∧ p.sleep_until ≤ s.ticks then
          some { p with pstate := PState.ready }
        else some p
      | none => none) }

/-- `scheduler_add_process(p)`: append to the queue tail and unconditionally
set the task's state to `READY` (last line of the C function). -/
def scheduler_add_process (s : SchedState) (i : Nat) : SchedState :=
  { (updateProc s i (fun p => { p with pstate := PState.ready })) with
    queue := s.queue ++ [i] }

/-- `scheduler_remove_process(p)`: unlink from the queue. -/
def scheduler_remove_process (s : SchedState) (i : Nat) : SchedState :=
  { s with queue := s.queue.erase i }

/-- `scheduler_pick_next()`: wake expired sleepers, then take the queue head
(whatever its state) and rotate it to the tail. -/
def scheduler_pick_next (s : SchedState) : SchedState × Option Nat :=
  let s1 := process_wakeup_sleeping s
  match s1.queue with
  | [] => (s1, none)
  | next :: _ =>
    (scheduler_add_process (scheduler_remove_process s1 next) next, some next)

/-- `scheduler_schedule(regs)`: the timer-tick scheduling path.  Register
copying in and out of the trap frame is not modelled; the state transitions
and the current-task switch are. -/
def scheduler_schedule (s : SchedState) : SchedState :=
  if s.running = false then s
  else
    let cur := s.current
    match scheduler_pick_next s with
    | (s1, none) => s1
    | (s1, some next) =>
      if cur = some next then s1
      else
        let s2 := match cur with
          | some c => updateProc s1 c (fun p =>
              { p with
                pstate := if p.pstate = PState.running then PState.ready else p.pstate
                time_used := 0 })
          | none => s1
        let s3 := updateProc s2 next (fun p =>
          { p with pstate := PState.running, total_time := p.total_time + 1 })
        { s3 with current := some next }

/-- `process_sleep(ticks)`: store the wake deadline and mark the current
task sleeping.  (The C then self-delivers the timer vector; the model
composes `scheduler_schedule` explicitly.)  Note that the task is *not*
removed from the ready queue. -/
def process_sleep (s : SchedState) (ticks : Nat) : SchedState :=
  match s.current with
  | none => s
  | some c => updateProc s c (fun p =>
      { p with sleep_until := s.ticks + ticks, pstate := PState.sleeping })

/-! ## Syscall dispatcher (src/kernel/arch/x86_64/syscall.c) -/

/-- The trap frame (`registers_t`), all fields unsigned 64-bit. -/
structure Registers where
  ds : Nat
  es : Nat
  fs : Nat
  gs : Nat
  r15 : Nat
  r14 : Nat
  r13 : Nat
  r12 : Nat
  r11 : Nat
  r10 : Nat
  r9 : Nat
  r8 : Nat
  rbp : Nat
  rdi : Nat
  rsi : Nat
  rdx : Nat
  rcx : Nat
  rbx : Nat
  rax : Nat
  int_no : Nat
  err_code : Nat
  rip : Nat
  cs : Nat
  rflags : Nat
  rsp : Nat
  ss : Nat
deriving DecidableEq

/-- A handler takes the trap frame (by pointer, so it may rewrite it) and
returns an `int64_t`. -/
def SyscallHandler := Registers → Registers × Int

/-- `SYSCALL_COUNT`. -/
def SYSCALL_COUNT : Nat := 16

/-- The handler table; `none` = unregistered slot.  Indexed by `Nat` with
the bounds check done by the dispatcher, as in the C array access. -/
def SyscallTable := Nat → Option SyscallHandler

/-- `syscall_register(num, handler)`. -/
def syscall_register (t : SyscallTable) (num : Nat) (h : SyscallHandler) : SyscallTable :=
  if num < SYSCALL_COUNT then Function.update t num (some h) else t

/-- `(uint64_t)v` for an `int64_t` value `v`. -/
def toUInt64 (v : Int) : Nat := (v % (2 ^ 64 : Int)).toNat

/-- `syscall_dispatcher(regs)`: the second component records which handler
(if any) was invoked, so that "invokes no handler" is a statement about the
model.  Out-of-range or unregistered numbers store `(uint64_t)-1` in `rax`;
a registered handler's return value is stored in `rax`. -/
def syscall_dispatcher (t : SyscallTable) (regs : Registers) : Registers × Option Nat :=
  let syscall_num := regs.rax
  if SYSCALL_COUNT ≤ syscall_num then ({ regs with rax := 2 ^ 64 - 1 }, none)
  else
    match t syscall_num with
    | none => ({ regs with rax := 2 ^ 64 - 1 }, none)
    | some h =>
      let r := h regs
      ({ r.1 with rax := toUInt64 r.2 }, some syscall_num)

/-! ## Kernel heap (src/kernel/mm/heap.c)

The heap is one arena of header-prefixed blocks chained by the
`next`/`prev` header fields; since the chain order is the arena order, the
block list is rendered as a `List` of headers (sizes include the header, as
in the C).  A payload pointer resolves to the index of its block. -/

def HEAP_MAGIC : Nat := 0x48454150

structure HeapBlock where
  magic : Nat
  size : Nat
  free : Bool
deriving DecidableEq

structure HeapState where
  blocks : List HeapBlock
  allocation_count : Nat
deriving DecidableEq

inductive HeapErr where
  | badMagic | doubleFree
deriving DecidableEq

/-- `coalesce_blocks()`: merge runs of adjacent free blocks, staying on the
current block after a merge.  `fuel` bounds the iteration count (the C loop
advances or shortens the list each step); callers pass the list length. -/
def coalesce_blocks : Nat → List HeapBlock → List HeapBlock
  | 0, l => l
  | _, [] => []
  | _, [b] => [b]
  | fuel + 1, b1 :: b2 :: rest =>
    if b1.free && b2.free then
      coalesce_blocks fuel ({ b1 with size := b1.size + b2.size } :: rest)
    else b1 :: coalesce_blocks fuel (b2 :: rest)

/-- `kfree(ptr)`: `idx` is the block whose payload `ptr` points at (a
pointer outside the arena reads an arbitrary header, which fails the magic
check).  Bad magic and double free are reported and change nothing;
otherwise the block is marked free, the allocation counter decremented
(`uint32_t`), and adjacent free blocks coalesced. -/
def kfree (s : HeapState) (idx : Nat) : HeapState × Option HeapErr :=
  match s.blocks.get? idx with
  | none => (s, some HeapErr.badMagic)
  | some b =>
    if b.magic ≠ HEAP_MAGIC then (s, some HeapErr.badMagic)
    else if b.free then (s, some HeapErr.doubleFree)
    else
      let marked := s.blocks.set idx { b with free := true }
      ({ blocks := coalesce_blocks marked.length marked,
         allocation_count := (s.allocation_count + (2 ^ 32 - 1)) % 2 ^ 32 }, none)

/-! ## Block device layer (src/kernel/drivers/block.c)

Only the device's geometry and the outcome of its `read_blocks` /
`write_blocks` callbacks matter to the byte-interface helpers; a device is
rendered by its block size and callback result functions (`0` = success).
The second component of the result records the `(start, count)` the device
callback was invoked with, `none` when it was not called. -/

structure BlockDevice where
  block_size : Nat
  read_blocks : Nat → Nat → Int
  write_blocks : Nat → Nat → Int

/-- `block_read(dev, offset, size, buffer)`: byte-granular read.  The
misalignment test covers both a misaligned offset and a misaligned size,
but inside it only a misaligned offset returns `-1`; a block-aligned offset
with a misaligned size falls through to the device call. -/
def block_read (dev : BlockDevice) (offset size : Nat) : Int × Option (Nat × Nat) :=
  let block_start := offset / dev.block_size
  let block_offset := offset % dev.block_size
  let blocks_needed := (block_offset + size + dev.block_size - 1) / dev.block_size
  if block_offset ≠ 0 ∨ size % dev.block_size ≠ 0 then
    if block_offset ≠ 0 then (-1, none)
    else
      let result := dev.read_blocks block_start blocks_needed
      if result ≠ 0 then (-1, some (block_start, blocks_needed))
      else (Int.ofNat size, some (block_start, blocks_needed))
  else
    let result := dev.read_blocks block_start blocks_needed
    if result ≠ 0 then (-1, some (block_start, blocks_needed))
    else (Int.ofNat size, some (block_start, blocks_needed))

/-- `block_write(dev, offset, size, buffer)`: rejects both misalignment
kinds before calling the device. -/
def block_write (dev : BlockDevice) (offset size : Nat) : Int × Option (Nat × Nat) :=
  let block_start := offset / dev.block_size
  let block_offset := offset % dev.block_size
  let blocks_needed := (block_offset + size + dev.block_size - 1) / dev.block_size
  if block_offset ≠ 0 ∨ size % dev.block_size ≠ 0 then (-1, none)
  else
    let result := dev.write_blocks block_start blocks_needed
    if result ≠ 0 then (-1, some (block_start, blocks_needed))
    else (Int.ofNat size, some (block_start, blocks_needed))

/-! ## SimpleFS read path (src/kernel/fs/simplefs.c)

`BLOCK_SIZE = 512`, `SIMPLEFS_MAX_FILE_BLOCKS = 12`,
`SIMPLEFS_TYPE_FILE = 1`.  A device is a partial map from block numbers to
block contents (a byte function); `none` = the device `read_block` call
fails.  The inode's direct-pointer array is a function on indices 0–11
(accesses stay below 12 by the code's bound check). -/

def SIMPLEFS_TYPE_FILE : Nat := 1

structure SInode where
  number : Nat
  itype : Nat
  size : Nat
  blocks : Nat
  direct : Nat → Nat
deriving Inhabited

/-- The copy loop of `simplefs_vfs_read`: accumulates the copied bytes.
Breaks ( returning the count so far) past the direct-pointer fan-out or at a
zero direct pointer; a failed device read returns `-1`.  `fuel` bounds the
iterations; each iteration copies at least one byte, so `to_read` suffices. -/
def simplefs_read_loop (dev : Nat → Option (Nat → Nat)) (inode : SInode)
    (offset to_read : Nat) : Nat → Nat → List Nat → Int × List Nat
  | bytes_read, 0, acc => (Int.ofNat bytes_read, acc)
  | bytes_read, fuel + 1, acc =>
    if bytes_read < to_read then
      let pos := offset + bytes_read
      let block_index := pos / 512
      let block_offset := pos % 512
      let block_remaining := 512 - block_offset
      let to_copy := if to_read - bytes_read < block_remaining then
                       to_read - bytes_read else block_remaining
      if 12 ≤ block_index then (Int.ofNat bytes_read, acc)
      else if inode.direct block_index = 0 then (Int.ofNat bytes_read, acc)
      else
        match dev (inode.direct block_index) with
        | none => (-1, acc)
        | some blk =>
          simplefs_read_loop dev inode offset to_read (bytes_read + to_copy) fuel
            (acc ++ (List.range to_copy).map (fun i => blk (block_offset + i)))
    else (Int.ofNat bytes_read, acc)

/-- `simplefs_vfs_read(node, offset, size, buffer)`: only regular files;
at-or-past-EOF reads return 0; the request is clamped to the file size; then
the copy loop runs.  The returned list is the data placed in `buffer`. -/
def simplefs_vfs_read (dev : Nat → Option (Nat → Nat)) (inode : SInode)
    (offset size : Nat) : Int × List Nat :=
  if inode.itype ≠ SIMPLEFS_TYPE_FILE then (-1, [])
  else if inode.size ≤ offset then (0, [])
  else
    let to_read := if inode.size < offset + size then inode.size - offset else size
    simplefs_read_loop dev inode offset to_read 0 to_read []

/-! ## User-task construction (src/kernel/sched/process.c, `process_create_user`)

The resources the failure-atomicity claim tracks are the physical frames
(via `PMMState` inside `VMState`), the created address space, and the
`kzalloc`/`kfree` balance of the task structure; the byte copies
(`memcpy` of the task image) and the PCB field assignments do not affect
resource ownership and are omitted.  `kzalloc_ok` is the heap's answer for
the one allocation; `table_has_slot` is whether `add_process` finds a free
`process_table` slot. -/

structure KState where
  vm : VMState
  heap_allocs : Nat

/-- One level of `manual_map_page`: if the entry is not present, allocate a
frame (no failure check in the C), zero it, link it with `PAGE_FLAGS_USER`;
then descend through the entry's frame base. -/
def manual_level (s : VMState) (tablePhys : Nat) (index : Fin 512) :
    Option (VMState × Nat) :=
  match s.mem tablePhys with
  | none => none
  | some t =>
    if entryPresent (t index) then some (s, entryAddr (t index))
    else
      match pmm_alloc_page s.pmm with
      | (pmm1, phys) =>
        let t1 : PTable := if tablePhys = phys then (fun _ => 0) else t
        some ({ mem := fun a =>
                  if a = tablePhys then
                    some (Function.update t1 index (phys ||| PAGE_FLAGS_USER))
                  else if a = phys then some (fun _ => 0)
                  else s.mem a,
                pmm := pmm1, cr3 := s.cr3 },
              entryAddr (phys ||| PAGE_FLAGS_USER))

/-- `manual_map_page(pml4, virt, phys, flags)`: build the three levels in
the given (not currently loaded) PML4 and write the leaf entry. -/
def manual_map_page (s : VMState) (pml4Phys virt phys flags : Nat) : Option VMState :=
  match manual_level s pml4Phys (pml4Index virt) with
  | none => none
  | some (s1, pdptPhys) =>
    match manual_level s1 pdptPhys (pdptIndex virt) with
    | none => none
    | some (s2, pdPhys) =>
      match manual_level s2 pdPhys (pdIndex virt) with
      | none => none
      | some (s3, ptPhys) =>
        match s3.mem ptPhys with
        | none => none
        | some pt =>
          some { s3 with
                 mem := fun a =>
                   if a = ptPhys then
                     some (Function.update pt (ptIndex virt) (phys ||| flags ||| 1))
                   else s3.mem a }

/-- The mapping loops of `process_create_user` (4 user-stack pages, then 4
user-code pages). -/
def map_user_range (s : VMState) (pml4Phys virtBase physBase : Nat) : Option VMState :=
  (List.range 4).foldlM
    (fun vm i => manual_map_page vm pml4Phys (virtBase + i * 4096)
                   (physBase + i * 4096) PAGE_FLAGS_USER) s

/-- `process_create_user(entry, name, priority)`: result is `none` for a
model-stuck execution, otherwise the final state and whether a task was
created (`false` = the C returned `NULL`).  Mirrors the C's acquisition
order and each failure path's cleanup exactly:

1. `kzalloc` of the PCB (fails if `kzalloc_ok = false`);
2. 4 kernel-stack frames — on failure free the PCB;
3. 4 user-stack frames — on failure free the kernel stack and PCB;
4. `vmm_create_address_space` — on failure free both stacks and the PCB;
5. 4 user-code frames — on failure destroy the space, free both stacks
   and the PCB;
6. map user stack at `0x8000000000` and user code at `0x8000010000`;
7. `add_process` — on a full table destroy the space, free the kernel and
   user stacks and the PCB (the user-code frames are not freed here). -/
def process_create_user (s : KState) (kzalloc_ok table_has_slot : Bool) :
    Option (KState × Bool) :=
  if kzalloc_ok = false then some (s, false)
  else
    let s := { s with heap_allocs := s.heap_allocs + 1 }
    match pmm_alloc_pages s.vm.pmm 4 with
    | (pmm1, kstack_phys) =>
      let s := { s with vm := { s.vm with pmm := pmm1 } }
      if kstack_phys = 0 then
        some ({ s with heap_allocs := s.heap_allocs - 1 }, false)
      else
        match pmm_alloc_pages s.vm.pmm 4 with
        | (pmm2, ustack_phys) =>
          let s := { s with vm := { s.vm with pmm := pmm2 } }
          if ustack_phys = 0 then
            some ({ s with
                    vm := { s.vm with pmm := pmm_free_pages s.vm.pmm kstack_phys 4 }
                    heap_allocs := s.heap_allocs - 1 }, false)
          else
            match vmm_create_address_space s.vm with
            | none => none
            | some (vm3, pml4_phys) =>
              let s := { s with vm := vm3 }
              if pml4_phys = 0 then
                some ({ s with
                        vm := { s.vm with
                                pmm := pmm_free_pages
                                  (pmm_free_pages s.vm.pmm kstack_phys 4) ustack_phys 4 }
                        heap_allocs := s.heap_allocs - 1 }, false)
              else
                match pmm_alloc_pages s.vm.pmm 4 with
                | (pmm4, user_code_phys) =>
                  let s := { s with vm := { s.vm with pmm := pmm4 } }
                  if user_code_phys = 0 then
                    match vmm_destroy_address_space s.vm pml4_phys with
                    | none => none
                    | some vm5 =>
                      some ({ s with
                              vm := { vm5 with
                                      pmm := pmm_free_pages
                                        (pmm_free_pages vm5.pmm kstack_phys 4) ustack_phys 4 }
                              heap_allocs := s.heap_allocs - 1 }, false)
                  else
                    match map_user_range s.vm pml4_phys 0x8000000000 ustack_phys with
                    | none => none
                    | some vmA =>
                      match map_user_range vmA pml4_phys 0x8000010000 user_code_phys with
                      | none => none
                      | some vmB =>
                        let s := { s with vm := vmB }
                        if table_has_slot = false then
                          match vmm_destroy_address_space s.vm pml4_phys with
                          | none => none
                          | some vmC =>
                            some ({ s with
                                    vm := { vmC with
                                            pmm := pmm_free_pages
                                              (pmm_free_pages vmC.pmm kstack_phys 4)
                                              ustack_phys 4 }
                                    heap_allocs := s.heap_allocs - 1 }, false)
                        else some (s, true)

/-! ## Auxiliary notions used by the statements -/

/-- Every frame that holds a live page table is marked used in the frame
allocator — the consistency the kernel maintains by only ever placing page
tables in frames obtained from `pmm_alloc_page` and not freed since. -/
def memFramesUsed (s : VMState) : Prop :=
  ∀ a, (s.mem a).isSome → s.pmm.bitmap (a / 4096) = true

/-- The page-table path currently installed for `virt`: the frames the
four-level walk visits, cut off at the first non-present entry or untracked
frame.  (`vmm_get_physical` reads exactly these frames in this order.) -/
def walkFrames (s : VMState) (virt : Nat) : List Nat :=
  let v := pageAlignDown virt
  match s.mem s.cr3 with
  | none => []
  | some t1 =>
    s.cr3 ::
      (if entryPresent (t1 (pml4Index v)) then
        match s.mem (entryAddr (t1 (pml4Index v))) with
        | none => []
        | some t2 =>
          entryAddr (t1 (pml4Index v)) ::
            (if entryPresent (t2 (pdptIndex v)) then
              match s.mem (entryAddr (t2 (pdptIndex v))) with
              | none => []
              | some t3 =>
                entryAddr (t2 (pdptIndex v)) ::
                  (if entryPresent (t3 (pdIndex v)) then
                    match s.mem (entryAddr (t3 (pdIndex v))) with
                    | none => []
                    | some _ => [entryAddr (t3 (pdIndex v))]
                  else [])
            else [])
      else [])

/-- Used frames of the bitmap below `total_pages`, for relating the
`used_pages` counter to the bitmap contents. -/
def pmm_count_used (s : PMMState) : Nat :=
  ((Finset.range s.total_pages).filter (fun i => s.bitmap i = true)).card

/-- The counter/bitmap consistency invariant of the frame allocator. -/
def PMMInv (s : PMMState) : Prop :=
  s.used_pages = pmm_count_used s ∧ s.total_pages ≤ 1048576

/-! ## Concrete states used by the witnesses -/

/-- A trap frame with all registers zero. -/
def zeroRegs : Registers :=
  ⟨0, 0, 0, 0, 0, 0, 0, 0, 0, 0, 0, 0, 0, 0, 0, 0, 0, 0, 0, 0, 0, 0, 0, 0, 0, 0⟩

/-- A syscall table with a single registered handler at slot 5 that returns
42 and leaves the trap frame alone. -/
def c2table : SyscallTable :=
  fun n => if n = 5 then some (fun r => (r, 42)) else none

/-- A two-block heap whose first block is already free. -/
def c7heap : HeapState :=
  ⟨[⟨HEAP_MAGIC, 64, true⟩, ⟨HEAP_MAGIC, 32, false⟩], 3⟩

/-- A 512-byte-block device whose transfers always succeed. -/
def c9dev : BlockDevice := ⟨512, fun _ _ => 0, fun _ _ => 0⟩

/-- Two tasks: slot 0 is current and running, slot 1 ready; the queue holds
slot 1 then slot 0 (slot 0 was rotated to the tail when it was picked). -/
def c1s0 : SchedState :=
  ⟨[some ⟨1, PState.running, 0, 0, 0⟩, some ⟨2, PState.ready, 0, 0, 0⟩],
   [1, 0], some 0, 50, true⟩

/-- Task 0 calls `sleep(51)` at tick 50, so its deadline is tick 101. -/
def c1s1 : SchedState := process_sleep c1s0 51

/-- The self-delivered timer vector runs the scheduler: task 1 runs. -/
def c1s2 : SchedState := scheduler_schedule c1s1

/-- The next timer tick (tick 51) runs the scheduler again. -/
def c1s3 : SchedState := scheduler_schedule { c1s2 with ticks := 51 }

/-- Page tables mapping virtual `0x400000` to physical frame 0 with
`{present, writable, user}`: PML4 at `0x2000` → PDPT at `0x3000` → PD at
`0x4000` → PT at `0x5000`, leaf entry `0 | 7`. -/
def c10pml4 : PTable := fun i => if i.val = 0 then 0x3003 else 0

def c10pdpt : PTable := fun i => if i.val = 0 then 0x4003 else 0

def c10pd : PTable := fun i => if i.val = 2 then 0x5003 else 0

def c10pt : PTable := fun i => if i.val = 0 then 7 else 0

def c10s : VMState :=
  ⟨fun a =>
    if a = 0x2000 then some c10pml4
    else if a = 0x3000 then some c10pdpt
    else if a = 0x4000 then some c10pd
    else if a = 0x5000 then some c10pt
    else none,
   ⟨0, fun _ => false, 0⟩, 0x2000⟩

/-- 64-frame pool with frame 0 (low memory) and frame 1 (holding the kernel
PML4 at `0x1000`) used; the PML4 is empty. -/
def c3vm : VMState :=
  ⟨fun a => if a = 0x1000 then some (fun _ => 0) else none,
   ⟨64, fun i => decide (i = 0) || decide (i = 1), 2⟩, 0x1000⟩

def c3k : KState := ⟨c3vm, 0⟩

/-- Scenario S1 of the specification: after init (16 frames, frame 0
pre-marked) allocate frames A, B, C and free B (frame 2, address `0x2000`). -/
def c5s : PMMState :=
  pmm_free_page
    (pmm_run (pmm_init 65536 0x100000 0x200000)
      [PMMOp.alloc_one, PMMOp.alloc_one, PMMOp.alloc_one]) 0x2000

/-- Initial state for the map/translate witness: kernel PML4 (empty) at
`0x1000`, frames 0 and 1 used, 64 frames total. -/
def c6s : VMState := c3vm

/-- A device holding file data in blocks 5 and 6 (all bytes 65). -/
def c8dev : Nat → Option (Nat → Nat) :=
  fun b => if b = 5 ∨ b = 6 then some (fun _ => 65) else none

/-- A 600-byte regular file whose two covered direct pointers are blocks 5
and 6. -/
def c8inode : SInode :=
  ⟨7, SIMPLEFS_TYPE_FILE, 600, 2,
   fun b => if b = 0 then 5 else if b = 1 then 6 else 0⟩

/-! # Theorems -/

/-- C2: for every trap frame whose `rax` is out of syscall-table bounds or
names an unregistered slot, the dispatcher writes `(uint64_t)-1` into `rax`
and invokes no handler; for a registered number it invokes exactly that
handler and writes the handler's return value (as `uint64_t`) into `rax`. -/
theorem C2_syscall_dispatch (t : SyscallTable) (regs : Registers) :
    ((SYSCALL_COUNT ≤ regs.rax ∨ t regs.rax = none) →
      syscall_dispatcher t regs = ({ regs with rax := 2 ^ 64 - 1 }, none))
    ∧ (∀ h, regs.rax < SYSCALL_COUNT → t regs.rax = some h →
      syscall_dispatcher t regs =
        ({ (h regs).1 with rax := toUInt64 (h regs).2 }, some regs.rax)) := by
  constructor
  · rintro (hge | hnone)
    · simp [syscall_dispatcher, hge]
    · by_cases hge : SYSCALL_COUNT ≤ regs.rax
      · simp [syscall_dispatcher, hge]
      · simp [syscall_dispatcher, hge, hnone]
  · intro h hlt hsome
    simp [syscall_dispatcher, Nat.not_le.mpr hlt, hsome]

/-- C2 witness: syscall number 99 is rejected with `-1` and no handler runs;
the handler registered at slot 5 runs and its return value 42 lands in
`rax`. -/
theorem C2_syscall_dispatch_witness :
    syscall_dispatcher c2table { zeroRegs with rax := 99 } =
      ({ { zeroRegs with rax := 99 } with rax := 2 ^ 64 - 1 }, none)
    ∧ syscall_dispatcher c2table { zeroRegs with rax := 5 } =
      ({ { zeroRegs with rax := 5 } with rax := toUInt64 42 }, some 5) :=
  ⟨(C2_syscall_dispatch c2table { zeroRegs with rax := 99 }).1 (Or.inl (by decide)),
   (C2_syscall_dispatch c2table { zeroRegs with rax := 5 }).2
     (fun r => (r, 42)) (by decide) rfl⟩

/-- C7: freeing a pointer whose heap block header carries the valid magic
tag but whose free flag is already set reports a double free and leaves the
heap state — block list and allocation counter — unchanged. -/
theorem C7_double_free_reported (s : HeapState) (idx : Nat) (b : HeapBlock)
    (hb : s.blocks.get? idx = some b) (hm : b.magic = HEAP_MAGIC)
    (hf : b.free = true) :
    kfree s idx = (s, some HeapErr.doubleFree) := by
  simp only [List.get?_eq_getElem?] at hb
  simp [kfree, hb, hm, hf]

/-- C7 witness: a double free on the concrete two-block heap. -/
theorem C7_double_free_reported_witness :
    kfree c7heap 0 = (c7heap, some HeapErr.doubleFree) :=
  C7_double_free_reported c7heap 0 ⟨HEAP_MAGIC, 64, true⟩ rfl rfl rfl

/-- C9 (violated as stated): a read of 1 byte at block-aligned offset 0
from a 512-byte-block device is not block-aligned, yet `block_read` invokes
the device's transfer routine (for one whole block starting at block 0) and
returns 1 instead of `-1`.  A misaligned *offset* on read, and both
misalignment kinds on write, are rejected without a device call, as the
claim demands. -/
theorem C9_misaligned_size_read_not_rejected :
    block_read c9dev 0 1 = (1, some (0, 1))
    ∧ block_read c9dev 1 512 = (-1, none)
    ∧ block_write c9dev 0 1 = (-1, none)
    ∧ block_write c9dev 1 512 = (-1, none) := by
  decide

/-- C1 (violated as stated): task 0 goes to sleep at tick 50 with deadline
tick 101 and stays in the ready queue; on the tick-51 run of the scheduler
it is picked off the queue head while still sleeping and marked `Running`
(the rotation through `scheduler_add_process` even rewrites it to `Ready`
first), 50 ticks before its wake deadline. -/
theorem C1_sleeping_task_selected_before_deadline :
    ((getProc c1s1 0).map (fun p => (p.pstate, p.sleep_until)) =
        some (PState.sleeping, 101))
    ∧ ((getProc c1s2 0).map (fun p => p.pstate) = some PState.sleeping)
    ∧ c1s3.ticks = 51
    ∧ ((getProc c1s3 0).map (fun p => (p.pstate, p.sleep_until)) =
        some (PState.running, 101))
    ∧ c1s3.current = some 0 := by
  decide

/-- C10: a page whose installed leaf entry is present but carries physical
frame 0 is reported exactly like an unmapped page: `vmm_get_physical`
returns 0 (its "not mapped" sentinel) and `vmm_is_mapped` returns false. -/
theorem C10_zero_frame_indistinguishable (s : VMState) (virt : Nat)
    (t1 t2 t3 t4 : PTable)
    (hva : virt % 4096 = 0)
    (h1 : s.mem s.cr3 = some t1)
    (hp1 : entryPresent (t1 (pml4Index virt)) = true)
    (h2 : s.mem (entryAddr (t1 (pml4Index virt))) = some t2)
    (hp2 : entryPresent (t2 (pdptIndex virt)) = true)
    (h3 : s.mem (entryAddr (t2 (pdptIndex virt))) = some t3)
    (hp3 : entryPresent (t3 (pdIndex virt)) = true)
    (h4 : s.mem (entryAddr (t3 (pdIndex virt))) = some t4)
    (hp4 : entryPresent (t4 (ptIndex virt)) = true)
    (hzero : entryAddr (t4 (ptIndex virt)) = 0) :
    vmm_get_physical s virt = some 0 ∧ vmm_is_mapped s virt = some false := by
  have hv : pageAlignDown virt = virt := by simp [pageAlignDown, hva]
  have hphys : vmm_get_physical s virt = some 0 := by
    simp [vmm_get_physical, hv, h1, hp1, h2, hp2, h3, hp3, h4, hp4, hzero, hva]
  exact ⟨hphys, by simp [vmm_is_mapped, hphys]⟩

/-- C10 witness: the concrete four-level tables mapping `0x400000` to frame
0 with `{present, writable, user}`. -/
theorem C10_zero_frame_indistinguishable_witness :
    vmm_get_physical c10s 0x400000 = some 0
    ∧ vmm_is_mapped c10s 0x400000 = some false :=
  C10_zero_frame_indistinguishable c10s 0x400000 c10pml4 c10pdpt c10pd c10pt
    (by decide) rfl (by decide) rfl (by decide) rfl (by decide) rfl (by decide)
    (by decide)

/-- C3 (violated as stated): running `process_create_user` to the
`add_process` failure (full process table) from a state with 2 used frames
releases the kernel stack, the user stack, the page tables and PML4 of the
new address space, and the task structure — but not the 4 user-code frames
(frames 11–14), so the allocator ends with 6 used frames instead of 2. -/
theorem C3_user_code_frames_leaked :
    (process_create_user c3k true false).map
      (fun r => (r.2, r.1.heap_allocs, r.1.vm.pmm.used_pages,
                 r.1.vm.pmm.bitmap 11, r.1.vm.pmm.bitmap 12,
                 r.1.vm.pmm.bitmap 13, r.1.vm.pmm.bitmap 14)) =
      some (false, 0, 6, true, true, true, true)
    ∧ c3k.vm.pmm.used_pages = 2 :=
  ⟨by rfl, by rfl⟩

/-- The copy loop of `simplefs_vfs_read` transfers exactly `to_read` bytes
when the requested range lies inside the file, the file respects the
direct-block fan-out, and the covered blocks are allocated and readable. -/
theorem simplefs_read_loop_complete (dev : Nat → Option (Nat → Nat))
    (inode : SInode) (offset to_read : Nat)
    (hrange : offset + to_read ≤ inode.size) (hmax : inode.size ≤ 12 * 512)
    (hcov : ∀ b, b < 12 → b * 512 < inode.size →
      inode.direct b ≠ 0 ∧ (dev (inode.direct b)).isSome) :
    ∀ fuel bytes_read acc, bytes_read ≤ to_read → to_read - bytes_read ≤ fuel →
      (simplefs_read_loop dev inode offset to_read bytes_read fuel acc).1 =
        Int.ofNat to_read := by
  intro fuel
  induction fuel with
  | zero =>
    intro bytes_read acc hle hfuel
    have hbr : bytes_read = to_read := by omega
    subst hbr
    simp [simplefs_read_loop]
  | succ n ih =>
    intro bytes_read acc hle hfuel
    by_cases hlt : bytes_read < to_read
    · have hpos : offset + bytes_read < inode.size := by omega
      have hbi : (offset + bytes_read) / 512 < 12 :=
        (Nat.div_lt_iff_lt_mul (by norm_num)).mpr (by omega)
      have hbase : ((offset + bytes_read) / 512) * 512 ≤ offset + bytes_read :=
        Nat.div_mul_le_self _ _
      obtain ⟨hdz, hds⟩ := hcov _ hbi (lt_of_le_of_lt hbase hpos)
      obtain ⟨blk, hblk⟩ := Option.isSome_iff_exists.mp hds
      have hmod : (offset + bytes_read) % 512 < 512 := Nat.mod_lt _ (by norm_num)
      rw [simplefs_read_loop]
      rw [if_pos hlt, if_neg (by omega), if_neg hdz, hblk]
      set tc := if to_read - bytes_read < 512 - (offset + bytes_read) % 512 then
        to_read - bytes_read else 512 - (offset + bytes_read) % 512 with htc
      have htc1 : 1 ≤ tc ∧ tc ≤ to_read - bytes_read := by
        rw [htc]; split <;> omega
      exact ih (bytes_read + tc) _ (by omega) (by omega)
    · have hbr : bytes_read = to_read := by omega
      subst hbr
      simp [simplefs_read_loop]

/-- C8: for a regular file whose size respects the direct-block fan-out and
whose covered direct blocks are allocated and readable, a read at or past
the file size returns 0 and transfers nothing, and a read starting inside
the file but running past its end transfers exactly `size - offset` bytes
(the request is clamped to the file size). -/
theorem C8_read_clamped_to_file_size (dev : Nat → Option (Nat → Nat))
    (inode : SInode) (offset n : Nat)
    (htype : inode.itype = SIMPLEFS_TYPE_FILE)
    (hmax : inode.size ≤ 12 * 512)
    (hcov : ∀ b, b < 12 → b * 512 < inode.size →
      inode.direct b ≠ 0 ∧ (dev (inode.direct b)).isSome) :
    (inode.size ≤ offset → simplefs_vfs_read dev inode offset n = (0, []))
    ∧ (offset < inode.size → inode.size < offset + n →
        (simplefs_vfs_read dev inode offset n).1 =
          Int.ofNat (inode.size - offset)) := by
  constructor
  · intro hle
    simp [simplefs_vfs_read, htype, hle]
  · intro hlt hover
    have hto : (if inode.size < offset + n then inode.size - offset else n) =
        inode.size - offset := if_pos hover
    simp only [simplefs_vfs_read, htype, SIMPLEFS_TYPE_FILE]
    rw [if_neg (by simp), if_neg (by omega), hto]
    exact simplefs_read_loop_complete dev inode offset (inode.size - offset)
      (by omega) hmax hcov (inode.size - offset) 0 [] (by omega) (by omega)

/-- C8 witness: on the 600-byte file, a read at offset 700 returns 0 bytes,
and a 200-byte read at offset 500 transfers exactly 100 bytes. -/
theorem C8_read_clamped_to_file_size_witness :
    simplefs_vfs_read c8dev c8inode 700 10 = (0, [])
    ∧ (simplefs_vfs_read c8dev c8inode 500 200).1 = Int.ofNat 100 :=
  ⟨(C8_read_clamped_to_file_size c8dev c8inode 700 10 (by decide) (by decide)
      (by decide)).1 (by decide),
   (C8_read_clamped_to_file_size c8dev c8inode 500 200 (by decide) (by decide)
      (by decide)).2 (by decide) (by decide)⟩

/-- Characterization of the first-fit scan: from position `i` with enough
fuel, a `some p` result is the least free page at or above `i`, and a
`none` result means every page from `i` on is used. -/
theorem find_free_page_from_spec (s : PMMState) :
    ∀ fuel i, s.total_pages ≤ i + fuel →
      (∀ p, find_free_page_from s i fuel = some p →
        i ≤ p ∧ p < s.total_pages ∧ s.bitmap p = false ∧
          ∀ q, i ≤ q → q < p → s.bitmap q = true)
      ∧ (find_free_page_from s i fuel = none →
          ∀ q, i ≤ q → q < s.total_pages → s.bitmap q = true) := by
  intro fuel
  induction fuel with
  | zero =>
    intro i hi
    constructor
    · intro p hp; simp [find_free_page_from] at hp
    · intro _ q hq1 hq2; omega
  | succ n ih =>
    intro i hi
    by_cases hlt : i < s.total_pages
    · by_cases hfree : s.bitmap i = false
      · constructor
        · intro p hp
          rw [find_free_page_from, if_pos hlt, if_pos hfree] at hp
          obtain rfl : i = p := by simpa using hp
          exact ⟨le_refl _, hlt, hfree, fun q hq1 hq2 => absurd (lt_of_le_of_lt hq1 hq2) (lt_irrefl _)⟩
        · intro hp
          rw [find_free_page_from, if_pos hlt, if_pos hfree] at hp
          simp at hp
      · have hused : s.bitmap i = true := by
          cases h : s.bitmap i with
          | false => exact absurd h hfree
          | true => rfl
        have hrec := ih (i + 1) (by omega)
        constructor
        · intro p hp
          rw [find_free_page_from, if_pos hlt, if_neg hfree] at hp
          obtain ⟨h1, h2, h3, h4⟩ := hrec.1 p hp
          refine ⟨by omega, h2, h3, fun q hq1 hq2 => ?_⟩
          rcases Nat.eq_or_lt_of_le hq1 with heq | hlt2
          · rw [← heq]; exact hused
          · exact h4 q hlt2 hq2
        · intro hp
          rw [find_free_page_from, if_pos hlt, if_neg hfree] at hp
          intro q hq1 hq2
          rcases Nat.eq_or_lt_of_le hq1 with heq | hlt2
          · rw [← heq]; exact hused
          · exact hrec.2 hp q hlt2 hq2
    · constructor
      · intro p hp
        rw [find_free_page_from, if_neg hlt] at hp
        simp at hp
      · intro _ q hq1 hq2; omega

/-- C5: single-frame allocation is first-fit — whenever at least one frame
is free, `pmm_alloc_page` returns the byte address of the free frame with
the lowest index (every lower-indexed frame is in use). -/
theorem C5_alloc_one_first_fit (s : PMMState)
    (h : ∃ i, i < s.total_pages ∧ s.bitmap i = false) :
    ∃ p, (pmm_alloc_page s).2 = p * 4096 ∧ p < s.total_pages ∧
      s.bitmap p = false ∧ ∀ q, q < p → s.bitmap q = true := by
  obtain ⟨i, hi, hfree⟩ := h
  have hspec := find_free_page_from_spec s s.total_pages 0 (by omega)
  cases hfind : find_free_page s with
  | none =>
    have := hspec.2 hfind i (by omega) hi
    rw [this] at hfree
    exact absurd hfree (by simp)
  | some p =>
    obtain ⟨_, h2, h3, h4⟩ := hspec.1 p hfind
    refine ⟨p, ?_, h2, h3, fun q hq => h4 q (by omega) hq⟩
    simp [pmm_alloc_page, hfind]

/-- C5 witness: scenario S1 — after allocating frames A=1, B=2, C=3 from
the freshly initialized 16-frame pool and freeing only B, the next
`pmm_alloc_page` returns B's address `0x2000` (first fit). -/
theorem C5_alloc_one_first_fit_witness :
    (∃ i, i < c5s.total_pages ∧ c5s.bitmap i = false)
    ∧ (∃ p, (pmm_alloc_page c5s).2 = p * 4096 ∧ p < c5s.total_pages ∧
        c5s.bitmap p = false ∧ ∀ q, q < p → c5s.bitmap q = true)
    ∧ (pmm_alloc_page c5s).2 = 0x2000 :=
  ⟨⟨2, by decide⟩, C5_alloc_one_first_fit c5s ⟨2, by decide⟩, by decide⟩

/-- Setting a clear bit below `n` adds one to the used-bit count. -/
theorem filter_update_true_card (f : Nat → Bool) (p n : Nat) (hp : p < n)
    (hf : f p = false) :
    ((Finset.range n).filter (fun i => Function.update f p true i = true)).card
      = ((Finset.range n).filter (fun i => f i = true)).card + 1 := by
  have hset : (Finset.range n).filter (fun i => Function.update f p true i = true)
      = insert p ((Finset.range n).filter (fun i => f i = true)) := by
    ext x
    by_cases hx : x = p
    · subst hx
      simp [Function.update_same, hp]
    · simp [Function.update_noteq hx, hx]
  rw [hset, Finset.card_insert_of_not_mem (by simp [hf])]

/-- Clearing a set bit below `n` removes one from the used-bit count (which
is positive). -/
theorem filter_update_false_card (f : Nat → Bool) (p n : Nat) (hp : p < n)
    (hf : f p = true) :
    ((Finset.range n).filter (fun i => Function.update f p false i = true)).card
      = ((Finset.range n).filter (fun i => f i = true)).card - 1
    ∧ 1 ≤ ((Finset.range n).filter (fun i => f i = true)).card := by
  have hmem : p ∈ (Finset.range n).filter (fun i => f i = true) := by
    simp [hp, hf]
  have hset : (Finset.range n).filter (fun i => Function.update f p false i = true)
      = ((Finset.range n).filter (fun i => f i = true)).erase p := by
    ext x
    by_cases hx : x = p
    · subst hx
      simp [Function.update_same]
    · simp [Function.update_noteq hx, hx]
  exact ⟨by rw [hset, Finset.card_erase_of_mem hmem],
         Finset.card_pos.mpr ⟨p, hmem⟩⟩

/-- `pmm_mark_used` preserves the counter/bitmap invariant. -/
theorem pmm_mark_used_inv (s : PMMState) (a : Nat) (h : PMMInv s) :
    PMMInv (pmm_mark_used s a) := by
  obtain ⟨h1, h2⟩ := h
  unfold pmm_mark_used
  dsimp only
  split
  · exact ⟨h1, h2⟩
  next hpage =>
    split
    next hfree =>
      refine ⟨?_, h2⟩
      show s.used_pages + 1 = pmm_count_used _
      unfold pmm_count_used
      simp only []
      rw [filter_update_true_card s.bitmap _ s.total_pages (by omega) hfree]
      rw [h1]; rfl
    · exact ⟨h1, h2⟩

/-- `pmm_free_page` preserves the counter/bitmap invariant. -/
theorem pmm_free_page_inv (s : PMMState) (a : Nat) (h : PMMInv s) :
    PMMInv (pmm_free_page s a) := by
  obtain ⟨h1, h2⟩ := h
  unfold pmm_free_page
  dsimp only
  split
  · exact ⟨h1, h2⟩
  split
  · exact ⟨h1, h2⟩
  next hpage =>
    split
    · exact ⟨h1, h2⟩
    next hused =>
      have hbit : s.bitmap (a / 4096 % 2 ^ 32) = true := by
        cases hb : s.bitmap (a / 4096 % 2 ^ 32) with
        | false => exact absurd hb hused
        | true => rfl
      obtain ⟨hcard, hpos⟩ :=
        filter_update_false_card s.bitmap (a / 4096 % 2 ^ 32) s.total_pages
          (by omega) hbit
      refine ⟨?_, h2⟩
      show s.used_pages - 1 = pmm_count_used _
      unfold pmm_count_used
      simp only []
      rw [hcard, h1]; rfl

/-- `pmm_alloc_page` preserves the counter/bitmap invariant. -/
theorem pmm_alloc_page_inv (s : PMMState) (h : PMMInv s) :
    PMMInv (pmm_alloc_page s).1 := by
  obtain ⟨h1, h2⟩ := h
  unfold pmm_alloc_page
  cases hfind : find_free_page s with
  | none => exact ⟨h1, h2⟩
  | some p =>
    obtain ⟨_, hlt, hfree, _⟩ :=
      (find_free_page_from_spec s s.total_pages 0 (by omega)).1 p hfind
    refine ⟨?_, h2⟩
    show s.used_pages + 1 = pmm_count_used _
    unfold pmm_count_used
    simp only []
    rw [filter_update_true_card s.bitmap p s.total_pages hlt hfree, h1]; rfl

/-- A `none` window test means the whole window is free. -/
theorem window_used_at_none (s : PMMState) (i count : Nat)
    (h : window_used_at s i count = none) :
    ∀ j, j < count → s.bitmap (i + j) = false := by
  intro j hj
  have := List.find?_eq_none.mp h j (List.mem_range.mpr hj)
  simpa using this

/-- A successful sliding-window scan returns a position at or after the
start, below the bound, whose whole window is free. -/
theorem find_free_pages_from_some (s : PMMState) (count bound : Nat) :
    ∀ fuel i p, find_free_pages_from s count bound i fuel = some p →
      i ≤ p ∧ p < bound ∧ ∀ j, j < count → s.bitmap (p + j) = false := by
  intro fuel
  induction fuel with
  | zero => intro i p hp; simp [find_free_pages_from] at hp
  | succ n ih =>
    intro i p hp
    rw [find_free_pages_from] at hp
    by_cases hi : i < bound
    · rw [if_pos hi] at hp
      cases hw : window_used_at s i count with
      | none =>
        rw [hw] at hp
        obtain rfl : i = p := by simpa using hp
        exact ⟨le_refl _, hi, window_used_at_none s i count hw⟩
      | some j =>
        rw [hw] at hp
        obtain ⟨h1, h2, h3⟩ := ih (i + j + 1) p hp
        exact ⟨by omega, h2, h3⟩
    · rw [if_neg hi] at hp
      simp at hp

/-- A successful `find_free_pages` with a request within the pool returns a
fully free window that lies inside the pool. -/
theorem find_free_pages_some_spec (s : PMMState) (count p : Nat)
    (hcnt : count ≤ s.total_pages) (htot : s.total_pages ≤ 1048576)
    (h : find_free_pages s count = some p) :
    p + count ≤ s.total_pages ∧ ∀ j, j < count → s.bitmap (p + j) = false := by
  unfold find_free_pages at h
  by_cases h0 : count = 0
  · rw [if_pos h0] at h; simp at h
  rw [if_neg h0] at h
  by_cases h1 : count = 1
  · rw [if_pos h1] at h
    obtain ⟨_, hlt, hfree, _⟩ :=
      (find_free_page_from_spec s s.total_pages 0 (by omega)).1 p h
    subst h1
    exact ⟨by omega, fun j hj => by
      obtain rfl : j = 0 := by omega
      simpa using hfree⟩
  · rw [if_neg h1] at h
    have hc64 : count % 2 ^ 64 = count := Nat.mod_eq_of_lt (by omega)
    have hbound : (s.total_pages + (2 ^ 64 - count % 2 ^ 64) + 1) % 2 ^ 64
        = s.total_pages + 1 - count := by
      rw [hc64]
      have he : s.total_pages + (2 ^ 64 - count) + 1
          = 2 ^ 64 + (s.total_pages + 1 - count) := by omega
      rw [he, Nat.add_mod_left, Nat.mod_eq_of_lt (by omega)]
    rw [hbound] at h
    obtain ⟨_, hlt, hfree⟩ := find_free_pages_from_some s count _ _ 0 p h
    exact ⟨by omega, hfree⟩

/-- Values outside the marked window are untouched by the marking fold. -/
theorem fold_update_true_outside (f : Nat → Bool) (p : Nat) :
    ∀ n x, (∀ j, j < n → x ≠ p + j) →
      ((List.range n).foldl (fun g i => Function.update g (p + i) true) f) x = f x := by
  intro n
  induction n with
  | zero => intro x _; simp
  | succ m ih =>
    intro x hx
    rw [List.range_succ, List.foldl_append]
    simp only [List.foldl_cons, List.foldl_nil]
    rw [Function.update_noteq (hx m (by omega))]
    exact ih x (fun j hj => hx j (by omega))

/-- Marking a fully free in-range window adds its length to the used-bit
count. -/
theorem fold_update_true_card (f : Nat → Bool) (p total : Nat) :
    ∀ n, (∀ j, j < n → f (p + j) = false) → p + n ≤ total →
      ((Finset.range total).filter
        (fun i => ((List.range n).foldl (fun g i => Function.update g (p + i) true) f) i = true)).card
      = ((Finset.range total).filter (fun i => f i = true)).card + n := by
  intro n
  induction n with
  | zero => simp
  | succ m ih =>
    intro hfree hle
    rw [List.range_succ]
    have hval : ((List.range m).foldl (fun g i => Function.update g (p + i) true) f) (p + m)
        = f (p + m) :=
      fold_update_true_outside f p m (p + m) (fun j hj => by omega)
    have hstep : ∀ x, ((List.range m ++ [m]).foldl (fun g i => Function.update g (p + i) true) f) x
        = Function.update ((List.range m).foldl (fun g i => Function.update g (p + i) true) f)
            (p + m) true x := by
      intro x
      rw [List.foldl_append]
      simp
    have hset : (Finset.range total).filter
        (fun i => ((List.range m ++ [m]).foldl (fun g i => Function.update g (p + i) true) f) i = true)
        = (Finset.range total).filter
          (fun i => Function.update ((List.range m).foldl (fun g i => Function.update g (p + i) true) f)
            (p + m) true i = true) := by
      apply Finset.filter_congr
      intro x _
      rw [hstep x]
    rw [hset,
        filter_update_true_card _ (p + m) total (by omega) (by rw [hval]; exact hfree m (by omega)),
        ih (fun j hj => hfree j (by omega)) (by omega)]
    omega

/-- `pmm_alloc_pages` with a request within the pool preserves the
counter/bitmap invariant. -/
theorem pmm_alloc_pages_inv (s : PMMState) (n : Nat) (hn : n ≤ s.total_pages)
    (h : PMMInv s) : PMMInv (pmm_alloc_pages s n).1 := by
  obtain ⟨h1, h2⟩ := h
  unfold pmm_alloc_pages
  split
  · exact ⟨h1, h2⟩
  cases hfind : find_free_pages s n with
  | none => exact ⟨h1, h2⟩
  | some p =>
    obtain ⟨hle, hfree⟩ := find_free_pages_some_spec s n p hn h2 hfind
    refine ⟨?_, h2⟩
    show s.used_pages + n = pmm_count_used _
    unfold pmm_count_used
    simp only []
    rw [fold_update_true_card s.bitmap p s.total_pages n hfree hle, h1]; rfl

/-- No frame-allocator operation changes `total_pages`. -/
theorem pmm_step_total (s : PMMState) (op : PMMOp) :
    (pmm_step s op).total_pages = s.total_pages := by
  cases op with
  | alloc_one =>
    show (pmm_alloc_page s).1.total_pages = s.total_pages
    unfold pmm_alloc_page
    cases find_free_page s <;> rfl
  | alloc_contiguous n =>
    show (pmm_alloc_pages s n).1.total_pages = s.total_pages
    unfold pmm_alloc_pages
    split
    · rfl
    cases find_free_pages s n <;> rfl
  | free_one a =>
    show (pmm_free_page s a).total_pages = s.total_pages
    unfold pmm_free_page
    dsimp only
    split
    · rfl
    split
    · rfl
    split <;> rfl
  | free_range a n =>
    show (pmm_free_pages s a n).total_pages = s.total_pages
    unfold pmm_free_pages
    induction (List.range n) generalizing s with
    | nil => rfl
    | cons x l ih =>
      rw [List.foldl_cons]
      rw [ih (pmm_free_page s (a + x * 4096))]
      unfold pmm_free_page
      dsimp only
      split
      · rfl
      split
      · rfl
      split <;> rfl
  | mark_used a =>
    show (pmm_mark_used s a).total_pages = s.total_pages
    unfold pmm_mark_used
    dsimp only
    split
    · rfl
    split <;> rfl

/-- Each bounded operation preserves the counter/bitmap invariant. -/
theorem pmm_step_inv (s : PMMState) (op : PMMOp)
    (hop : pmm_op_bounded s.total_pages op = true) (h : PMMInv s) :
    PMMInv (pmm_step s op) := by
  cases op with
  | alloc_one => exact pmm_alloc_page_inv s h
  | alloc_contiguous n =>
    exact pmm_alloc_pages_inv s n (of_decide_eq_true hop) h
  | free_one a => exact pmm_free_page_inv s a h
  | free_range a n =>
    show PMMInv (pmm_free_pages s a n)
    unfold pmm_free_pages
    induction (List.range n) generalizing s with
    | nil => exact h
    | cons x l ih =>
      rw [List.foldl_cons]
      apply ih
      · exact pmm_free_page_inv s _ h
      · rfl
  | mark_used a => exact pmm_mark_used_inv s a h

/-- Any bounded operation sequence preserves the invariant and the pool
size. -/
theorem pmm_run_inv (L : List PMMOp) :
    ∀ s, (∀ op ∈ L, pmm_op_bounded s.total_pages op = true) → PMMInv s →
      PMMInv (pmm_run s L) ∧ (pmm_run s L).total_pages = s.total_pages := by
  induction L with
  | nil => intro s _ h; exact ⟨h, rfl⟩
  | cons op L ih =>
    intro s hL h
    have hstep := pmm_step_inv s op (hL op (by simp)) h
    have htot := pmm_step_total s op
    have := ih (pmm_step s op)
      (fun o ho => by rw [htot]; exact hL o (by simp [ho]))
      hstep
    exact ⟨this.1, by rw [pmm_run, List.foldl_cons, ← pmm_run, this.2, htot]⟩

/-- `pmm_init` establishes the invariant from any boot parameters. -/
theorem pmm_init_inv (mem_size kernel_end bitmap_addr : Nat) :
    PMMInv (pmm_init mem_size kernel_end bitmap_addr) := by
  have hbase : PMMInv ⟨if 1048576 < mem_size / 4096 then 1048576 else mem_size / 4096,
      fun _ => false, 0⟩ := by
    constructor
    · show 0 = pmm_count_used _
      unfold pmm_count_used
      simp
    · show (if 1048576 < mem_size / 4096 then 1048576 else mem_size / 4096) ≤ 1048576
      split <;> omega
  have hfold : ∀ (l : List Nat) (g : Nat → Nat) (s : PMMState), PMMInv s →
      PMMInv (l.foldl (fun st i => pmm_mark_used st (g i)) s) := by
    intro l g
    induction l with
    | nil => intro s h; exact h
    | cons x l ih =>
      intro s h
      rw [List.foldl_cons]
      exact ih _ (pmm_mark_used_inv s (g x) h)
  unfold pmm_init
  exact hfold _ _ _ (hfold _ _ _ (pmm_mark_used_inv _ 0 hbase))

/-- Setting any bit keeps a set bit set. -/
theorem update_true_keeps (f : Nat → Bool) (q x : Nat) (h : f x = true) :
    Function.update f q true x = true := by
  by_cases hx : x = q
  · subst hx; simp
  · rw [Function.update_noteq hx]; exact h

/-- A fold of bit-settings keeps a set bit set. -/
theorem fold_update_true_keeps (g : Nat → Nat) :
    ∀ (l : List Nat) (f : Nat → Bool) (x : Nat), f x = true →
      (l.foldl (fun f' i => Function.update f' (g i) true) f) x = true := by
  intro l
  induction l with
  | nil => intro f x h; exact h
  | cons a l ih =>
    intro f x h
    rw [List.foldl_cons]
    exact ih _ x (update_true_keeps f (g a) x h)

/-- `pmm_free_page` of an address resolving to a different frame keeps a
set bit set. -/
theorem pmm_free_page_keeps (s : PMMState) (a p : Nat)
    (hne : a / 4096 % 2 ^ 32 ≠ p) (hp : s.bitmap p = true) :
    (pmm_free_page s a).bitmap p = true := by
  unfold pmm_free_page
  dsimp only
  split
  · exact hp
  split
  · exact hp
  split
  · exact hp
  show Function.update s.bitmap (a / 4096 % 2 ^ 32) false p = true
  rw [Function.update_noteq (fun h => hne h.symm)]
  exact hp

/-- An operation that does not free frame `p` keeps its bit set. -/
theorem pmm_step_keeps (s : PMMState) (op : PMMOp) (p : Nat)
    (hp : s.bitmap p = true) (hop : pmm_op_frees op p = false) :
    (pmm_step s op).bitmap p = true := by
  cases op with
  | alloc_one =>
    show (pmm_alloc_page s).1.bitmap p = true
    unfold pmm_alloc_page
    cases find_free_page s with
    | none => exact hp
    | some q => exact update_true_keeps s.bitmap q p hp
  | alloc_contiguous n =>
    show (pmm_alloc_pages s n).1.bitmap p = true
    unfold pmm_alloc_pages
    split
    · exact hp
    cases find_free_pages s n with
    | none => exact hp
    | some q => exact fold_update_true_keeps _ _ _ p hp
  | free_one a =>
    have hne : a / 4096 % 2 ^ 32 ≠ p := by
      intro he
      rw [pmm_op_frees] at hop
      simp at hop
      omega
    exact pmm_free_page_keeps s a p hne hp
  | free_range a n =>
    have hall : ∀ i, i < n → (a + i * 4096) / 4096 % 2 ^ 32 ≠ p := by
      intro i hi he
      rw [pmm_op_frees] at hop
      rw [List.any_eq_false] at hop
      have := hop i (List.mem_range.mpr hi)
      simp at this
      omega
    show (pmm_free_pages s a n).bitmap p = true
    unfold pmm_free_pages
    have : ∀ (l : List Nat) (st : PMMState), (∀ i ∈ l, (a + i * 4096) / 4096 % 2 ^ 32 ≠ p) →
        st.bitmap p = true →
        (l.foldl (fun st' i => pmm_free_page st' (a + i * 4096)) st).bitmap p = true := by
      intro l
      induction l with
      | nil => intro st _ h; exact h
      | cons x l ih =>
        intro st hl h
        rw [List.foldl_cons]
        exact ih _ (fun i hi => hl i (by simp [hi]))
          (pmm_free_page_keeps st _ p (hl x (by simp)) h)
    exact this _ s (fun i hi => hall i (List.mem_range.mp hi)) hp
  | mark_used a =>
    show (pmm_mark_used s a).bitmap p = true
    unfold pmm_mark_used
    dsimp only
    split
    · exact hp
    split
    · exact update_true_keeps s.bitmap _ p hp
    · exact hp

/-- A sequence of operations none of which frees frame `p` keeps its bit
set. -/
theorem pmm_run_keeps (M : List PMMOp) :
    ∀ (s : PMMState) (p : Nat), (∀ op ∈ M, pmm_op_frees op p = false) →
      s.bitmap p = true → (pmm_run s M).bitmap p = true := by
  induction M with
  | nil => intro s p _ h; exact h
  | cons op M ih =>
    intro s p hM h
    exact ih _ p (fun o ho => hM o (by simp [ho]))
      (pmm_step_keeps s op p h (hM op (by simp)))

/-- C4 (amended): after init, for every operation sequence in which each
`alloc_contiguous` request is at most the total frame count, the used and
free counters always sum to the total frame count; and (unconditionally) a
frame address returned by `alloc_one` is never returned by the next
`alloc_one` unless some intervening operation freed that frame. -/
theorem C4_frame_accounting (mem_size kernel_end bitmap_addr : Nat) (L : List PMMOp) :
    ((∀ op ∈ L,
        pmm_op_bounded (pmm_init mem_size kernel_end bitmap_addr).total_pages op = true) →
      pmm_get_used_pages (pmm_run (pmm_init mem_size kernel_end bitmap_addr) L)
        + pmm_get_free_pages (pmm_run (pmm_init mem_size kernel_end bitmap_addr) L)
        = pmm_get_total_pages (pmm_run (pmm_init mem_size kernel_end bitmap_addr) L))
    ∧ ∀ (M : List PMMOp) (a : Nat),
        (pmm_alloc_page (pmm_run (pmm_init mem_size kernel_end bitmap_addr) L)).2 = a →
        a ≠ 0 →
        (∀ op ∈ M, pmm_op_frees op (a / 4096) = false) →
        (pmm_alloc_page (pmm_run
          (pmm_alloc_page (pmm_run (pmm_init mem_size kernel_end bitmap_addr) L)).1 M)).2 ≠ a := by
  constructor
  · intro hL
    obtain ⟨⟨hinv, htot⟩, _⟩ :=
      pmm_run_inv L (pmm_init mem_size kernel_end bitmap_addr) hL
        (pmm_init_inv mem_size kernel_end bitmap_addr)
    have hused : (pmm_run (pmm_init mem_size kernel_end bitmap_addr) L).used_pages
        ≤ (pmm_run (pmm_init mem_size kernel_end bitmap_addr) L).total_pages := by
      rw [hinv]
      unfold pmm_count_used
      calc ((Finset.range _).filter _).card ≤ (Finset.range _).card :=
            Finset.card_filter_le _ _
        _ = _ := Finset.card_range _
    unfold pmm_get_used_pages pmm_get_free_pages pmm_get_total_pages u32_sub
    omega
  · intro M a ha hne hM
    set s := pmm_run (pmm_init mem_size kernel_end bitmap_addr) L with hs
    cases hfind : find_free_page s with
    | none =>
      rw [show (pmm_alloc_page s).2 = 0 by simp [pmm_alloc_page, hfind]] at ha
      exact absurd ha.symm hne
    | some q =>
      have ha2 : (pmm_alloc_page s).2 = q * 4096 := by
        simp [pmm_alloc_page, hfind]
      have hq : a = q * 4096 := by rw [← ha, ha2]
      have hqdiv : a / 4096 = q := by rw [hq]; exact Nat.mul_div_cancel q (by norm_num)
      have hbit1 : (pmm_alloc_page s).1.bitmap q = true := by
        unfold pmm_alloc_page
        rw [hfind]
        simp
      have hbit2 : (pmm_run (pmm_alloc_page s).1 M).bitmap q = true :=
        pmm_run_keeps M _ q (by rw [← hqdiv]; exact hM) hbit1
      set s2 := pmm_run (pmm_alloc_page s).1 M with hs2
      cases hfind2 : find_free_page s2 with
      | none =>
        rw [show (pmm_alloc_page s2).2 = 0 by
          unfold pmm_alloc_page; rw [hfind2]]
        omega
      | some r =>
        have hfr : s2.bitmap r = false :=
          ((find_free_page_from_spec _ _ 0 (by omega)).1 r hfind2).2.2.1
        have hrq : r ≠ q := fun he => by rw [he, hbit2] at hfr; cases hfr
        rw [show (pmm_alloc_page s2).2 = r * 4096 by
          unfold pmm_alloc_page; rw [hfind2]]
        rw [hq]
        intro he
        exact hrq (Nat.eq_of_mul_eq_mul_right (by norm_num) he)

/-- C4 witness: from a 16-frame pool, run `alloc_one` then `free_one` of
the returned frame; the counters sum to 16, and with no intervening free
the next two `alloc_one` calls return different frames (`0x1000` then
`0x2000`). -/
theorem C4_frame_accounting_witness :
    (pmm_get_used_pages (pmm_run (pmm_init 65536 0x100000 0x200000)
        [PMMOp.alloc_one, PMMOp.free_one 0x1000])
      + pmm_get_free_pages (pmm_run (pmm_init 65536 0x100000 0x200000)
        [PMMOp.alloc_one, PMMOp.free_one 0x1000])
      = pmm_get_total_pages (pmm_run (pmm_init 65536 0x100000 0x200000)
        [PMMOp.alloc_one, PMMOp.free_one 0x1000]))
    ∧ (pmm_alloc_page (pmm_run
        (pmm_alloc_page (pmm_run (pmm_init 65536 0x100000 0x200000)
          [PMMOp.alloc_one, PMMOp.free_one 0x1000])).1 [])).2 ≠ 0x1000 := by
  have h := C4_frame_accounting 65536 0x100000 0x200000
    [PMMOp.alloc_one, PMMOp.free_one 0x1000]
  exact ⟨h.1 (by decide), h.2 [] 0x1000 (by decide) (by decide) (by decide)⟩

/-- C4 (violated as stated): on a freshly initialized 2-frame pool (8 KiB of
memory), `alloc_contiguous(4)` underflows the scan bound
`total_pages - count + 1`, finds a "free" window at frame 1 that extends
past the pool, and marks 4 frames used: the used counter becomes 5 > 2 and
the reported used/free counts no longer sum to the total frame count. -/
theorem C4_counterexample_oversized_contiguous :
    pmm_get_used_pages (pmm_run (pmm_init 8192 0x100000 0x200000)
        [PMMOp.alloc_contiguous 4])
      + pmm_get_free_pages (pmm_run (pmm_init 8192 0x100000 0x200000)
        [PMMOp.alloc_contiguous 4])
      ≠ pmm_get_total_pages (pmm_run (pmm_init 8192 0x100000 0x200000)
        [PMMOp.alloc_contiguous 4]) := by
  decide

/-- Bitwise-or of a `2^k`-aligned value with a value below `2^k` is their
sum (the C writes page-table entries as `phys | flags`). -/
theorem lor_two_pow_mul_add (k : Nat) :
    ∀ q b, b < 2 ^ k → 2 ^ k * q ||| b = 2 ^ k * q + b := by
  induction k with
  | zero =>
    intro q b hb
    obtain rfl : b = 0 := by omega
    simp
  | succ n ih =>
    intro q b hb
    have hdiv : b / 2 < 2 ^ n := by
      rw [Nat.div_lt_iff_lt_mul (by norm_num)]
      rw [pow_succ] at hb
      exact hb
    have hbit : 2 ^ (n + 1) * q = Nat.bit false (2 ^ n * q) := by
      rw [Nat.bit_val]
      simp [pow_succ]
      ring
    have hb2 : b = Nat.bit (decide (b % 2 = 1)) (b / 2) := by
      rw [Nat.bit_val]
      rcases Nat.mod_two_eq_zero_or_one b with h | h <;> simp [h] <;> omega
    rw [hbit, hb2, Nat.lor_bit, ih q (b / 2) hdiv, Bool.false_or]
    simp only [Nat.bit_val, Bool.toNat_false]
    rcases Nat.mod_two_eq_zero_or_one b with h | h <;> simp [h] <;> omega

/-- `phys | flags = phys + flags` for a page-aligned `phys` and small flag
set. -/
theorem lor_align_eq_add (phys f : Nat) (hp : phys % 4096 = 0) (hf : f < 4096) :
    phys ||| f = phys + f := by
  obtain ⟨q, rfl⟩ : ∃ q, phys = 4096 * q :=
    ⟨phys / 4096, by omega⟩
  have := lor_two_pow_mul_add 12 q f (by norm_num; omega)
  norm_num at this
  exact this

/-- `entry & ~0xFFF` recovers the aligned address from `phys | flags`. -/
theorem entryAddr_lor (phys f : Nat) (hp : phys % 4096 = 0) (hf : f < 4096) :
    entryAddr (phys ||| f) = phys := by
  rw [lor_align_eq_add phys f hp hf]
  unfold entryAddr
  omega

/-- Any entry with the `PAGE_PRESENT` bit or'd in tests as present. -/
theorem lor_one_odd (x : Nat) : (x ||| 1) % 2 = 1 := by
  rcases Nat.mod_two_eq_zero_or_one x with h | h
  · obtain ⟨q, rfl⟩ : ∃ q, x = 2 * q := ⟨x / 2, by omega⟩
    have := lor_two_pow_mul_add 1 q 1 (by norm_num)
    norm_num at this
    rw [this]
    omega
  · obtain ⟨q, rfl⟩ : ∃ q, x = 2 * q + 1 := ⟨x / 2, by omega⟩
    have h1 : 2 * q + 1 = Nat.bit true q := by rw [Nat.bit_val]; simp
    have h2 : (1 : Nat) = Nat.bit true 0 := by simp [Nat.bit_val]
    rw [h1, h2, Nat.lor_bit]
    rw [Nat.bit_val]
    simp
    omega

/-- Or-ing values below `2^k` stays below `2^k`. -/
theorem lor_lt_two_pow {x y k : Nat} (hx : x < 2 ^ k) (hy : y < 2 ^ k) :
    x ||| y < 2 ^ k :=
  Nat.bitwise_lt hx hy

/-- A successful `pmm_alloc_page` returns the byte address of a previously
free frame and only sets that frame's bit. -/
theorem pmm_alloc_page_char (s pmm1 : PMMState) (phys : Nat)
    (h : pmm_alloc_page s = (pmm1, phys)) (hnz : phys ≠ 0) :
    ∃ page, phys = page * 4096 ∧ s.bitmap page = false ∧
      pmm1.bitmap = Function.update s.bitmap page true := by
  unfold pmm_alloc_page at h
  cases hfind : find_free_page s with
  | none =>
    rw [hfind] at h
    injection h with h1 h2
    exact absurd h2.symm hnz
  | some page =>
    rw [hfind] at h
    injection h with h1 h2
    obtain ⟨_, _, hfree, _⟩ :=
      (find_free_page_from_spec s s.total_pages 0 (by omega)).1 page hfind
    exact ⟨page, h2.symm, hfree, by rw [← h1]⟩

/-- Postcondition of `get_or_create_table` under the allocator/page-table
consistency `memFramesUsed`: the parent entry at `index` now carries a
present entry whose frame base is the returned child; all other frames
except possibly the fresh child are untouched; and the call either found
the entry present (state unchanged) or installed a zeroed fresh frame that
held no table before. -/
theorem get_or_create_spec {s : VMState} {tablePhys : Nat} {index : Fin 512}
    {flags : Nat} {s' : VMState} {cp : Nat}
    (hF : memFramesUsed s) (hfl : flags < 4096) (hodd : flags % 2 = 1)
    (h : get_or_create_table s tablePhys index flags = some (s', cp)) :
    ∃ t, s.mem tablePhys = some t ∧
    ∃ e, entryPresent e = true ∧ entryAddr e = cp ∧
      s'.mem tablePhys = some (Function.update t index e) ∧
      (∀ a, a ≠ tablePhys → a ≠ cp → s'.mem a = s.mem a) ∧
      (∀ a, (s.mem a).isSome → (s'.mem a).isSome) ∧
      (∀ p, s.pmm.bitmap p = true → s'.pmm.bitmap p = true) ∧
      s'.cr3 = s.cr3 ∧
      memFramesUsed s' ∧
      ((s' = s ∧ entryPresent (t index) = true ∧ cp = entryAddr (t index))
        ∨ (entryPresent (t index) = false ∧ s.mem cp = none ∧
            s'.mem cp = some (fun _ => 0) ∧ cp % 4096 = 0 ∧ cp ≠ 0)) := by
  unfold get_or_create_table at h
  cases hmem : s.mem tablePhys with
  | none => rw [hmem] at h; cases h
  | some t =>
    rw [hmem] at h
    dsimp only at h
    refine ⟨t, rfl, ?_⟩
    by_cases hpres : entryPresent (t index) = true
    · rw [if_pos hpres] at h
      injection h with h1
      injection h1 with hs hcp
      subst hs
      refine ⟨t index, hpres, hcp, ?_, ?_, ?_, ?_, rfl, hF,
        Or.inl ⟨rfl, hpres, hcp.symm⟩⟩
      · rw [Function.update_eq_self, hmem]
      · intro a _ _; rfl
      · intro a ha; exact ha
      · intro p hp; exact hp
    · rw [if_neg hpres] at h
      rcases hall : pmm_alloc_page s.pmm with ⟨pmm1, phys⟩
      rw [hall] at h
      by_cases hz : phys = 0
      · rw [if_pos hz] at h; cases h
      · rw [if_neg hz] at h
        obtain ⟨page, hpg, hfree, hbm⟩ := pmm_alloc_page_char s.pmm pmm1 phys hall hz
        have hal : phys % 4096 = 0 := by omega
        have hdiv : phys / 4096 = page := by omega
        have hmemphys : s.mem phys = none := by
          cases hsome : s.mem phys with
          | none => rfl
          | some _ =>
            have := hF phys (by rw [hsome]; rfl)
            rw [hdiv] at this
            rw [this] at hfree
            cases hfree
        have hne : tablePhys ≠ phys := by
          intro he
          rw [← he] at hmemphys
          rw [hmemphys] at hmem
          cases hmem
        injection h with h1
        injection h1 with hs hcp
        have ht1 : (if tablePhys = phys then (fun _ => (0 : Nat)) else t) = t :=
          if_neg hne
        subst hcp
        refine ⟨phys ||| flags,
          by unfold entryPresent
             rw [lor_align_eq_add phys flags hal hfl]
             simp
             omega,
          entryAddr_lor phys flags hal hfl, ?_, ?_, ?_, ?_, ?_, ?_,
          Or.inr ⟨by simpa using hpres, hmemphys, ?_, hal, hz⟩⟩
        · rw [← hs]
          simp only [ht1]
          simp
        · intro a ha1 ha2
          rw [← hs]
          simp only []
          rw [if_neg ha1, if_neg ha2]
        · intro a ha
          rw [← hs]
          simp only []
          by_cases h1 : a = tablePhys
          · rw [if_pos h1]; rfl
          · rw [if_neg h1]
            by_cases h2 : a = phys
            · rw [if_pos h2]; rfl
            · rw [if_neg h2]; exact ha
        · intro p hp
          rw [← hs]
          simp only [hbm]
          exact update_true_keeps s.pmm.bitmap page p hp
        · rw [← hs]
        · intro a ha
          rw [← hs] at ha ⊢
          simp only [hbm]
          simp only [] at ha
          by_cases h1 : a = tablePhys
          · subst h1
            have := hF a (by rw [hmem]; rfl)
            exact update_true_keeps s.pmm.bitmap page _ this
          · rw [if_neg h1] at ha
            by_cases h2 : a = phys
            · subst h2
              rw [hdiv]
              simp [Function.update_same]
            · rw [if_neg h2] at ha
              exact update_true_keeps s.pmm.bitmap page _ (hF a ha)
        · rw [← hs]
          simp only []
          rw [if_neg (fun he => hne he.symm)]
          simp

/-- `entryPresent 0 = false` (a zeroed table has no present entries). -/
theorem entryPresent_zero : entryPresent 0 = false := rfl

/-- The leaf entry `phys | flags | PAGE_PRESENT` is present and carries
`phys`. -/
theorem leaf_entry_fields (phys flags : Nat) (hpa : phys % 4096 = 0)
    (hfl : flags < 4096) :
    entryPresent (phys ||| flags ||| 1) = true
    ∧ entryAddr (phys ||| flags ||| 1) = phys := by
  constructor
  · unfold entryPresent
    simp [lor_one_odd]
  · rw [Nat.lor_assoc]
    exact entryAddr_lor phys (flags ||| 1) hpa
      (lor_lt_two_pow (k := 12) (by norm_num; omega) (by norm_num))


/-- C6: if `map(V, F, flags)` succeeds for a page-aligned virtual address
`V`, a nonzero page-aligned frame `F` and a 12-bit flag set — starting from
a state whose live page-table frames are marked used in the allocator and
whose installed path for `V` has no repeated frame — then `translate(V)`
returns `F` and `is_mapped(V)` is true, and after a subsequent `unmap(V)`,
`is_mapped(V)` is false. -/
theorem C6_map_translate_unmap (s : VMState) (virt phys flags : Nat) (s' : VMState)
    (hF : memFramesUsed s)
    (hND : (walkFrames s virt).Nodup)
    (hva : virt % 4096 = 0) (hpa : phys % 4096 = 0) (hpnz : phys ≠ 0)
    (hfl : flags < 4096)
    (hmap : vmm_map_page s virt phys flags = some s') :
    vmm_get_physical s' virt = some phys
    ∧ vmm_is_mapped s' virt = some true
    ∧ ∃ su, vmm_unmap_page s' virt = some su ∧ vmm_is_mapped su virt = some false := by
  have hp : pageAlignDown phys = phys := by unfold pageAlignDown; omega
  have hflk : PAGE_FLAGS_KERNEL < 4096 := by norm_num [PAGE_FLAGS_KERNEL]
  have hoddk : PAGE_FLAGS_KERNEL % 2 = 1 := by norm_num [PAGE_FLAGS_KERNEL]
  unfold vmm_map_page at hmap
  dsimp only at hmap
  cases h1 : get_or_create_table s s.cr3 (pml4Index (pageAlignDown virt))
      PAGE_FLAGS_KERNEL with
  | none => rw [h1] at hmap; cases hmap
  | some r1 =>
  obtain ⟨s1, F1⟩ := r1
  rw [h1] at hmap
  dsimp only at hmap
  cases h2 : get_or_create_table s1 F1 (pdptIndex (pageAlignDown virt))
      PAGE_FLAGS_KERNEL with
  | none => rw [h2] at hmap; cases hmap
  | some r2 =>
  obtain ⟨s2, F2⟩ := r2
  rw [h2] at hmap
  dsimp only at hmap
  cases h3 : get_or_create_table s2 F2 (pdIndex (pageAlignDown virt))
      PAGE_FLAGS_KERNEL with
  | none => rw [h3] at hmap; cases hmap
  | some r3 =>
  obtain ⟨s3, F3⟩ := r3
  rw [h3] at hmap
  dsimp only at hmap
  cases hpt : s3.mem F3 with
  | none => rw [hpt] at hmap; cases hmap
  | some pt =>
  rw [hpt] at hmap
  injection hmap with hs'
  obtain ⟨t1, hm1, e1, hpr1, had1, hup1, hoth1, hdom1, hbit1, hcr1, hF1, hD1⟩ :=
    get_or_create_spec hF hflk hoddk h1
  obtain ⟨t2, hm2, e2, hpr2, had2, hup2, hoth2, hdom2, hbit2, hcr2, hF2, hD2⟩ :=
    get_or_create_spec hF1 hflk hoddk h2
  obtain ⟨t3, hm3, e3, hpr3, had3, hup3, hoth3, hdom3, hbit3, hcr3, hF3, hD3⟩ :=
    get_or_create_spec hF2 hflk hoddk h3
  obtain ⟨d01, d02, d03, d12, d13, d23⟩ :
      s.cr3 ≠ F1 ∧ s.cr3 ≠ F2 ∧ s.cr3 ≠ F3 ∧ F1 ≠ F2 ∧ F1 ≠ F3 ∧ F2 ≠ F3 := by
    rcases hD1 with ⟨hq1, hpe1, hce1⟩ | ⟨hnp1, hnone1, hz1, hal1, hnz1⟩
    · have hm2s : s.mem F1 = some t2 := by rw [← hq1]; exact hm2
      rcases hD2 with ⟨hq2, hpe2, hce2⟩ | ⟨hnp2, hnone2, hz2, hal2, hnz2⟩
      · have hm3s : s.mem F2 = some t3 := by rw [← hq1, ← hq2]; exact hm3
        rcases hD3 with ⟨hq3, hpe3, hce3⟩ | ⟨hnp3, hnone3, hz3, hal3, hnz3⟩
        · have hpts : s.mem F3 = some pt := by rw [← hq1, ← hq2, ← hq3]; exact hpt
          have hwalk : walkFrames s virt = [s.cr3, F1, F2, F3] := by
            simp only [walkFrames, hm1, hpe1, ← hce1, hm2s, hpe2, ← hce2,
              hm3s, hpe3, ← hce3, hpts, if_true]
          rw [hwalk] at hND
          simp [List.nodup_cons] at hND
          exact ⟨hND.1.1, hND.1.2.1, hND.1.2.2, hND.2.1.1, hND.2.1.2, hND.2.2⟩
        · have hnone3s : s.mem F3 = none := by rw [← hq1, ← hq2]; exact hnone3
          have hwalk : walkFrames s virt = [s.cr3, F1, F2] := by
            simp only [walkFrames, hm1, hpe1, ← hce1, hm2s, hpe2, ← hce2,
              hm3s, hnp3, if_true, Bool.false_eq_true, if_false]
          rw [hwalk] at hND
          simp [List.nodup_cons] at hND
          refine ⟨hND.1.1, hND.1.2, ?_, hND.2, ?_, ?_⟩
          · intro he; rw [← he, hm1] at hnone3s; cases hnone3s
          · intro he; rw [← he, hm2s] at hnone3s; cases hnone3s
          · intro he; rw [← he, hm3s] at hnone3s; cases hnone3s
      · rcases hD3 with ⟨hq3, hpe3, hce3⟩ | ⟨hnp3, hnone3, hz3, hal3, hnz3⟩
        · exfalso
          rw [hz2] at hm3
          injection hm3 with ht3
          rw [← ht3] at hpe3
          simp [entryPresent] at hpe3
        · have hnone2s : s.mem F2 = none := by rw [← hq1]; exact hnone2
          have hwalk : walkFrames s virt = [s.cr3, F1] := by
            simp only [walkFrames, hm1, hpe1, ← hce1, hm2s, hnp2, if_true,
              Bool.false_eq_true, if_false]
          rw [hwalk] at hND
          simp [List.nodup_cons] at hND
          refine ⟨hND, ?_, ?_, ?_, ?_, ?_⟩
          · intro he; rw [← he, hm1] at hnone2s; cases hnone2s
          · intro he
            have hd : (s2.mem s.cr3).isSome = true := by
              apply hdom2
              rw [hq1, hm1]; rfl
            rw [he, hnone3] at hd; cases hd
          · intro he; rw [← he, hm2s] at hnone2s; cases hnone2s
          · intro he
            have hd : (s2.mem F1).isSome = true := by
              apply hdom2
              rw [hq1, hm2s]; rfl
            rw [he, hnone3] at hd; cases hd
          · intro he; rw [he, hnone3] at hz2; cases hz2
    · rcases hD2 with ⟨hq2, hpe2, hce2⟩ | ⟨hnp2, hnone2, hz2, hal2, hnz2⟩
      · exfalso
        rw [hz1] at hm2
        injection hm2 with ht2
        rw [← ht2] at hpe2
        simp [entryPresent] at hpe2
      · rcases hD3 with ⟨hq3, hpe3, hce3⟩ | ⟨hnp3, hnone3, hz3, hal3, hnz3⟩
        · exfalso
          rw [hz2] at hm3
          injection hm3 with ht3
          rw [← ht3] at hpe3
          simp [entryPresent] at hpe3
        · refine ⟨?_, ?_, ?_, ?_, ?_, ?_⟩
          · intro he; rw [← he, hm1] at hnone1; cases hnone1
          · intro he
            have hd : (s1.mem s.cr3).isSome = true := by
              apply hdom1
              rw [hm1]; rfl
            rw [he, hnone2] at hd; cases hd
          · intro he
            have hd : (s2.mem s.cr3).isSome = true := by
              apply hdom2
              apply hdom1
              rw [hm1]; rfl
            rw [he, hnone3] at hd; cases hd
          · intro he; rw [he, hnone2] at hz1; cases hz1
          · intro he
            have hd : (s2.mem F1).isSome = true := by
              apply hdom2
              rw [hz1]; rfl
            rw [he, hnone3] at hd; cases hd
          · intro he; rw [he, hnone3] at hz2; cases hz2
  have hcr : s'.cr3 = s.cr3 := by rw [← hs']; show s3.cr3 = s.cr3; rw [hcr3, hcr2, hcr1]
  set T4 : PTable := Function.update pt (ptIndex (pageAlignDown virt))
    (pageAlignDown phys ||| flags ||| 1) with hT4
  have hA0 : s'.mem s.cr3 =
      some (Function.update t1 (pml4Index (pageAlignDown virt)) e1) := by
    rw [← hs']
    show (if s.cr3 = F3 then some T4 else s3.mem s.cr3) = _
    rw [if_neg d03, hoth3 s.cr3 d02 d03, hoth2 s.cr3 d01 d02, hup1]
  have hA1 : s'.mem F1 =
      some (Function.update t2 (pdptIndex (pageAlignDown virt)) e2) := by
    rw [← hs']
    show (if F1 = F3 then some T4 else s3.mem F1) = _
    rw [if_neg d13, hoth3 F1 d12 d13, hup2]
  have hA2 : s'.mem F2 =
      some (Function.update t3 (pdIndex (pageAlignDown virt)) e3) := by
    rw [← hs']
    show (if F2 = F3 then some T4 else s3.mem F2) = _
    rw [if_neg d23, hup3]
  have hA3 : s'.mem F3 = some T4 := by
    rw [← hs']
    show (if F3 = F3 then some T4 else s3.mem F3) = _
    rw [if_pos rfl]
  have hpal : pageAlignDown phys % 4096 = 0 := by unfold pageAlignDown; omega
  obtain ⟨hlp, hla0⟩ := leaf_entry_fields (pageAlignDown phys) flags hpal hfl
  have hla : entryAddr (pageAlignDown phys ||| flags ||| 1) = phys := by
    rw [hla0, hp]
  have htrans : vmm_get_physical s' virt = some phys := by
    simp [vmm_get_physical, hcr, hA0, hA1, hA2, hA3, hT4, Function.update_same,
      hpr1, had1, hpr2, had2, hpr3, had3, hlp, hla, hva]
  refine ⟨htrans, by simp [vmm_is_mapped, htrans, hpnz], ?_⟩
  have hunmap : vmm_unmap_page s' virt = some
      { s' with mem := fun a =>
          if a = F3 then some (Function.update T4 (ptIndex (pageAlignDown virt)) 0) else s'.mem a } := by
    simp [vmm_unmap_page, hcr, hA0, hA1, hA2, hA3, Function.update_same,
      hpr1, had1, hpr2, had2, hpr3, had3]
  refine ⟨_, hunmap, ?_⟩
  have htrans2 : vmm_get_physical
      { s' with mem := fun a =>
          if a = F3 then some (Function.update T4 (ptIndex (pageAlignDown virt)) 0) else s'.mem a } virt
      = some 0 := by
    simp [vmm_get_physical, hcr, d03, d13, d23, hA0, hA1, hA2,
      Function.update_same, hpr1, had1, hpr2, had2, hpr3, had3, entryPresent,
      hva]
  simp [vmm_is_mapped, htrans2]

/-- C6 witness: scenario S3 — from the concrete kernel state, map virtual
`0x400000` to frame `0x5000` with `{present, writable}`; translate returns
`0x5000`, the page is mapped, and after unmap it is not. -/
theorem C6_map_translate_unmap_witness :
    memFramesUsed c6s
    ∧ ∃ s', vmm_map_page c6s 0x400000 0x5000 3 = some s'
        ∧ vmm_get_physical s' 0x400000 = some 0x5000
        ∧ vmm_is_mapped s' 0x400000 = some true
        ∧ ∃ su, vmm_unmap_page s' 0x400000 = some su
            ∧ vmm_is_mapped su 0x400000 = some false := by
  have hF : memFramesUsed c6s := by
    intro a ha
    by_cases h : a = 0x1000
    · subst h; decide
    · exfalso
      simp [c6s, c3vm, h] at ha
  have hND : (walkFrames c6s 0x400000).Nodup := by decide
  have hsome : (vmm_map_page c6s 0x400000 0x5000 3).isSome = true := by decide
  obtain ⟨s', hs'⟩ := Option.isSome_iff_exists.mp hsome
  have h := C6_map_translate_unmap c6s 0x400000 0x5000 3 s' hF hND
    (by decide) (by decide) (by decide) (by decide) hs'
  exact ⟨hF, s', hs', h.1, h.2.1, h.2.2⟩
